import Mathlib

/-!
# Verification of the struct-style pack/unpack engine of `@taichunmin/buffer`

This development is a shallow embedding, in Lean 4, of the binary
pack/unpack engine of `src/lib/buffer.ts` (`Buffer.packParseFormat`,
`Buffer.packCalcSize`, `Buffer.pack`, `Buffer.unpack`, `Buffer.iterUnpack`
and the per-type codec functions `packFrom*` / `unpackTo*`), together with
theorems about the engine's contract.

Modelling conventions:

* A JS `Buffer`/`Uint8Array` is a `List Nat` of byte values; index
  assignment out of range is a silent no-op (as on `Uint8Array`), which the
  embedding mirrors with `List.set`.
* The `DataView` fixed-width numeric get/set primitives (host collaborators,
  not repository code) are modelled from the spec as little/big-endian
  byte-list encodings of the value reduced mod `2^width`.  `DataView`
  methods throw on out-of-range offsets; every call the engine makes is
  in range because `pack`/`unpack` check capacity first, so the clamping
  model coincides with the host on all reachable calls.
* JS machine integers and floats are `Nat`/`Int` with explicit reductions;
  IEEE-754 doubles are modelled by their 64-bit patterns (`Nat < 2^64`).
* Fallible code returns `Except`; errors thrown after the engine has
  started writing carry the buffer state at throw time, because in JS the
  caller's buffer keeps the partial writes after the exception.
* The host-probed module constant `isNativeLittleEndian` is modelled as an
  explicit `nle : Bool` parameter threaded through the entry points.
-/

namespace JsBuffer

/-! ## Byte-list primitives (the byte-container collaborator) -/

/-- Little-endian byte list (length `w`) of `n`, i.e. of `n % 2^(8*w)`. -/
def natToBytesLE : (w : Nat) → (n : Nat) → List Nat
  | 0, _ => []
  | w + 1, n => n % 256 :: natToBytesLE w (n / 256)

/-- Big-endian byte list (length `w`) of `n`. -/
def natToBytesBE (w : Nat) (n : Nat) : List Nat :=
  (natToBytesLE w n).reverse

/-- Value of a little-endian byte list. -/
def natFromBytesLE : List Nat → Nat
  | [] => 0
  | b :: bs => b + 256 * natFromBytesLE bs

/-- Value of a big-endian byte list. -/
def natFromBytesBE (bs : List Nat) : Nat :=
  natFromBytesLE bs.reverse

/-- Read a byte at an index; out-of-range reads give 0. -/
def getByteD (buf : List Nat) (i : Nat) : Nat :=
  buf.getD i 0

/-- Write the bytes `bs` into `buf` starting at `off`; out-of-range parts
are dropped (the `Uint8Array`/`set` clamping semantics). -/
def writeBytesAt (buf : List Nat) (off : Nat) : List Nat → List Nat
  | [] => buf
  | b :: bs => writeBytesAt (buf.set off b) (off + 1) bs

/-- Read `w` consecutive bytes starting at `off` (0 beyond the end). -/
def readBytesAt (buf : List Nat) (off w : Nat) : List Nat :=
  (List.range w).map fun i => getByteD buf (off + i)

/-- `buf.subarray(st, en)` of a JS typed array, as a value (clamping). -/
def subarrayList (buf : List Nat) (st en : Nat) : List Nat :=
  (buf.take en).drop st

/-! ## DataView numeric primitives

Modelled from the spec: §6.3 lists the "fixed-offset numeric read/write
methods for each integer/float width and byte order" as collaborator
interfaces; in the source they are `DataView.prototype.setUint16` /
`getUint16` etc. on the buffer's backing store.  A `set` writes the value
mod `2^(8*w)` in the requested byte order (`setIntN` and `setUintN` write
identical bytes — two's complement); a `get` reads them back. -/

/-- `DataView` `set` of width `w` (both the signed and unsigned variants,
which write the same two's-complement bytes). -/
def dvSet (w : Nat) (le : Bool) (buf : List Nat) (off : Nat) (v : Int) : List Nat :=
  let n : Nat := (v % ((2 : Int) ^ (8 * w))).toNat
  writeBytesAt buf off (if le then natToBytesLE w n else natToBytesBE w n)

/-- `DataView` unsigned `get` of width `w`. -/
def dvGetUint (w : Nat) (le : Bool) (buf : List Nat) (off : Nat) : Nat :=
  let bs := readBytesAt buf off w
  if le then natFromBytesLE bs else natFromBytesBE bs

/-- `DataView` signed `get` of width `w` (two's-complement decode). -/
def dvGetInt (w : Nat) (le : Bool) (buf : List Nat) (off : Nat) : Int :=
  let n := dvGetUint w le buf off
  if n < 2 ^ (8 * w - 1) then (n : Int) else (n : Int) - (2 : Int) ^ (8 * w)

/-! ## Format parser (`Buffer.packParseFormat`) -/

/-- The type-code alphabet of the format grammar. -/
def isPackTypeCode (c : Char) : Bool :=
  c ∈ ['x', 'c', 'b', 'B', '?', 'h', 'H', 'i', 'I', 'l', 'L', 'q', 'Q', 'e', 'f', 'd', 's', 'p']

/-- The optional byte-order prefix characters. -/
def isByteOrderPrefix (c : Char) : Bool :=
  c ∈ ['@', '=', '<', '>', '!']

/-- The parsed form of a format string: resolved byte order plus the ordered
`(repeat, typeCode)` items. -/
structure PackFormat where
  littleEndian : Bool
  items : List (Nat × Char)
deriving DecidableEq

/-- The repeat-count clamp the parser applies when building an item:
`(type === 'p' && repeat > 255) ? 255 : repeat`. -/
def clampRepeat (t : Char) (rep : Nat) : Nat :=
  if t = 'p' ∧ rep > 255 then 255 else rep

/-- Tokenizer for the format body, one character at a time.  The `acc`
argument holds the decimal repeat prefix read so far for the current item
(`none` when the previous item just ended).  This is the
`matched[2].matchAll(/\d*[xcbB?hHiIlLqQefdsp]/g)` pass of the source
combined with `_.parseInt` on the digit prefix (exact here; `parseInt`
returns a double, which coincides on every representable format string). -/
def parseItemsAux : List Char → Option Nat → Option (List (Nat × Char))
  | [], none => some []
  | [], some _ => none
  | c :: cs, acc =>
    if c.isDigit then
      parseItemsAux cs (some ((acc.getD 0) * 10 + (c.toNat - 48)))
    else if isPackTypeCode c then
      (parseItemsAux cs none).map fun rest =>
        (clampRepeat c (acc.getD 1), c) :: rest
    else
      none

/-- Errors thrown by the engine, with the data the messages carry. -/
inductive JsError where
  /-- `TypeError('Invalid type of format')` -/
  | invalidFormatType : JsError
  /-- ``TypeError(`Invalid format: ${format}`)`` -/
  | invalidFormat (format : String) : JsError
  /-- `TypeError('Invalid type of buf')` -/
  | invalidBufType : JsError
  /-- ``RangeError(`buf.length = ${..}, lenRequired = ${..}`)``: carries the
  actual and required lengths. -/
  | bufTooSmall (bufLength lenRequired : Nat) : JsError
  /-- `TypeError('Not enough vals')` -/
  | notEnoughVals : JsError
  /-- ``Error(`Unknown format: ${repeat}${type}`)`` -/
  | unknownFormat (rep : Nat) (t : Char) : JsError
  /-- `TypeError` from `Buffer.from` on a value of unsupported type. -/
  | invalidValueType : JsError
  /-- `TypeError` from converting a `BigInt` to a number or vice versa. -/
  | bigIntConversion : JsError
deriving DecidableEq

/-- `Buffer.packParseFormat` on a string argument.  `nle` is the module
constant `isNativeLittleEndian` (probed from the host at startup).  The
regex `^([@=<>!]?)((?:\d*[xcbB?hHiIlLqQefdsp])+)$` is realised by an
optional prefix split followed by the deterministic tokenizer (the three
character classes are disjoint, so the regex match is unambiguous). -/
def packParseFormat (nle : Bool) (format : String) : Except JsError PackFormat :=
  let cs := format.data
  let pre : Option Char := match cs with
    | c :: _ => if isByteOrderPrefix c then some c else none
    | [] => none
  let body : List Char := match cs with
    | c :: rest => if isByteOrderPrefix c then rest else cs
    | [] => []
  match parseItemsAux body none with
  | some items =>
      if body.isEmpty then .error (.invalidFormat format)
      else
        -- `_.includes(['', '@', '='], matched[1]) ? isNativeLittleEndian
        --                                         : (matched[1] === '<')`
        let littleEndian :=
          if pre ∈ [none, some '@', some '='] then nle else pre = some '<'
        .ok { littleEndian := littleEndian, items := items }
  | none => .error (.invalidFormat format)

/-- A JS argument that may or may not be a string, for the
`if (!_.isString(format)) throw new TypeError('Invalid type of format')`
guard of `packParseFormat`. -/
inductive JsStringArg where
  | str (s : String) : JsStringArg
  | nonString (tag : String) : JsStringArg
deriving DecidableEq

/-- `Buffer.packParseFormat` including the dynamic argument-type guard. -/
def packParseFormatArg (nle : Bool) (a : JsStringArg) : Except JsError PackFormat :=
  match a with
  | .str s => packParseFormat nle s
  | .nonString _ => .error .invalidFormatType

/-! ## Size calculator (`Buffer.packCalcSize`) -/

/-- Byte width of one parsed item, as summed by `Buffer.packCalcSize`. -/
def itemSize (item : Nat × Char) : Nat :=
  let rep := item.1
  let t := item.2
  if t ∈ ['h', 'H', 'e'] then rep * 2
  else if t ∈ ['i', 'I', 'l', 'L', 'f'] then rep * 4
  else if t ∈ ['q', 'Q', 'd'] then rep * 8
  else rep

/-- `Buffer.packCalcSize` on an already-parsed items list. -/
def packCalcSize (items : List (Nat × Char)) : Nat :=
  (items.map itemSize).sum

/-! ## The format-string grammar as a DFA

An independent statement of the regex
`^([@=<>!]?)((?:\d*[xcbB?hHiIlLqQefdsp])+)$`, written as a five-state
deterministic automaton rather than a parser, to state parser-failure
claims against. States: 0 = start, 1 = just after a byte-order prefix,
2 = inside a digit run, 3 = just after a type code, 4 = dead. -/

/-- One DFA transition of the format-string grammar. -/
def fmtStep (st : Nat) (c : Char) : Nat :=
  if st = 0 ∧ isByteOrderPrefix c then 1
  else if st ≤ 3 ∧ c.isDigit then 2
  else if st ≤ 3 ∧ isPackTypeCode c then 3
  else 4

/-- Acceptance by the format-string grammar: run the DFA from the start
state; accept exactly in state 3 (at least one complete item, no dangling
digits). -/
def fmtAccepts (s : String) : Bool :=
  s.data.foldl fmtStep 0 = 3

/-! ## IEEE-754 model

JS numbers are binary64 values; the engine converts them with the host's
`DataView` `setFloat32`/`getFloat32`/`setFloat64`/`getFloat64` (collaborator
primitives) and with the repository's own bit-level half-precision helpers
`floatU32ToU16` / `floatU16ToU32`.  Doubles are modelled by their 64-bit
patterns. -/

/-- Fuelled floor-log₂ helper (structural recursion on the fuel, so that it
reduces inside the kernel). -/
def log2fuel : Nat → Nat → Nat
  | 0, _ => 0
  | fuel + 1, n => if n < 2 then 0 else log2fuel fuel (n / 2) + 1

/-- Floor of log₂ (0 at 0): `Nat.log2`, made kernel-computable. -/
def natLog2 (n : Nat) : Nat := log2fuel n n

/-- Round `n / 2^k` to the nearest integer, ties to even. -/
def rshiftRNE (n k : Nat) : Nat :=
  let d := 2 ^ k
  let q := n / d
  let r := n % d
  if 2 * r < d then q
  else if d < 2 * r then q + 1
  else if q % 2 = 0 then q else q + 1

/-- Modelled from the spec: IEEE-754 round-to-nearest-even conversion of the
positive dyadic rational `M * 2^E` into the magnitude bits (exponent and
fraction fields) of a binary floating-point format with `fb` fraction bits,
minimal quantum exponent `qmin` and maximal exponent field `maxE`
(binary32: `fb = 23`, `qmin = -149`, `maxE = 255`; binary64: `fb = 52`,
`qmin = -1074`, `maxE = 2047`).  Overflow gives the infinity pattern
`maxE * 2^fb`. -/
def roundFloatMag (fb : Nat) (qmin : Int) (maxE : Nat) (M : Nat) (E : Int) : Nat :=
  if M = 0 then 0
  else
    let e2 : Int := (natLog2 M : Int) + E
    let u : Int := max (e2 - (fb : Int)) qmin
    let q : Nat := if u ≤ E then M * 2 ^ (E - u).toNat else rshiftRNE M (u - E).toNat
    let q' : Nat := if 2 ^ (fb + 1) ≤ q then q / 2 else q
    let u' : Int := if 2 ^ (fb + 1) ≤ q then u + 1 else u
    if q' < 2 ^ fb then q'
    else
      let ef : Int := u' - qmin + 1
      if (maxE : Int) ≤ ef then maxE * 2 ^ fb
      else ef.toNat * 2 ^ fb + (q' - 2 ^ fb)

/-- Sign bit of a binary64 pattern. -/
def f64Sign (x : Nat) : Nat := x / 2 ^ 63 % 2

/-- Exponent field of a binary64 pattern. -/
def f64Exp (x : Nat) : Nat := x / 2 ^ 52 % 2 ^ 11

/-- Fraction field of a binary64 pattern. -/
def f64Frac (x : Nat) : Nat := x % 2 ^ 52

/-- Sign bit of a binary32 pattern. -/
def f32Sign (w : Nat) : Nat := w / 2 ^ 31 % 2

/-- Exponent field of a binary32 pattern. -/
def f32Exp (w : Nat) : Nat := w / 2 ^ 23 % 2 ^ 8

/-- Fraction field of a binary32 pattern. -/
def f32Frac (w : Nat) : Nat := w % 2 ^ 23

/-- A binary64 NaN pattern. -/
def isNaN64 (x : Nat) : Prop := f64Exp x = 2047 ∧ f64Frac x ≠ 0

/-- A binary32 NaN pattern. -/
def isNaN32 (w : Nat) : Prop := f32Exp w = 255 ∧ f32Frac w ≠ 0

instance (x : Nat) : Decidable (isNaN64 x) := by unfold isNaN64; infer_instance

instance (w : Nat) : Decidable (isNaN32 w) := by unfold isNaN32; infer_instance

/-- Modelled from the spec: `DataView.prototype.getFloat32` followed by a
`getFloat64` of the result, i.e. the exact binary32 → binary64 widening on
bit patterns.  NaN payloads widen bit-exactly (left-shifted), like the
common host behaviour; no theorem relies on NaN payloads. -/
def f32ToF64 (w : Nat) : Nat :=
  let s := f32Sign w
  let e := f32Exp w
  let m := f32Frac w
  if e = 255 then s * 2 ^ 63 + 2047 * 2 ^ 52 + m * 2 ^ 29
  else if e = 0 then
    if m = 0 then s * 2 ^ 63
    else
      let k := natLog2 m
      s * 2 ^ 63 + (k + 874) * 2 ^ 52 + (m - 2 ^ k) * 2 ^ (52 - k)
  else s * 2 ^ 63 + (e + 896) * 2 ^ 52 + m * 2 ^ 29

/-- Modelled from the spec: `DataView.prototype.setFloat32` on a binary64
pattern, i.e. the IEEE round-to-nearest-even binary64 → binary32 narrowing.
NaNs go to the canonical quiet NaN with the sign preserved (the payload is
host-defined; no theorem relies on it). -/
def f64ToF32 (x : Nat) : Nat :=
  let s := f64Sign x
  let e := f64Exp x
  let m := f64Frac x
  if e = 2047 then
    if m = 0 then s * 2 ^ 31 + 255 * 2 ^ 23
    else s * 2 ^ 31 + 255 * 2 ^ 23 + 2 ^ 22
  else
    let M : Nat := if e = 0 then m else 2 ^ 52 + m
    let E : Int := if e = 0 then -1074 else (e : Int) - 1075
    s * 2 ^ 31 + roundFloatMag 23 (-149) 255 M E

/-- Modelled from the spec: the binary64 pattern of the integer `i`
(`ToNumber` of an exact mathematical integer), with round-to-nearest-even
beyond `2^53`. -/
def intToF64 (i : Int) : Nat :=
  (if i < 0 then 2 ^ 63 else 0) + roundFloatMag 52 (-1074) 2047 i.natAbs 0

/-- Truncation of a binary64 value toward zero, as an `Int`; NaN gives 0.
This is the `toInteger` step of lodash `toSafeInteger` (infinities are first
clamped by `toFinite` to the largest finite doubles, whose truncations are
astronomically large and get clamped again later; the model returns a value
above the safe-integer clamp for them, which is all later stages observe). -/
def f64TruncInt (x : Nat) : Int :=
  let sgn : Int := if f64Sign x = 1 then -1 else 1
  let e := f64Exp x
  let m := f64Frac x
  if e = 2047 then
    if m = 0 then sgn * 2 ^ 54 else 0
  else
    let M : Nat := if e = 0 then m else 2 ^ 52 + m
    let mag : Nat := if e ≤ 1074 then M / 2 ^ (1075 - e) else M * 2 ^ (e - 1075)
    sgn * mag

/-! ## The repository's half-precision bit helpers

Transliterated from `floatU32ToU16` / `floatU16ToU32` in the source.  The
JS bitwise expressions on possibly-negative 32-bit intermediates are
written as arithmetic on the value reduced mod `2^32`; each contiguous-mask
`&` is written as the equivalent bit-field extraction. -/

/-- `floatU32ToU16`: fold a binary32 pattern to a binary16 pattern (by
truncation of the fraction; exponents are rebiased with wrapping 32-bit
arithmetic exactly as the JS `<<`/`&` produce). -/
def floatU32ToU16 (u32 : Nat) : Nat :=
  let exp : Nat := u32 / 2 ^ 23 % 2 ^ 8
  let sgn : Nat := u32 / 2 ^ 31 % 2 * 2 ^ 15
  if exp = 255 then sgn + 0x7C00 + (if u32 % 2 ^ 23 ≠ 0 then 0x200 else 0)
  else if exp = 0 then sgn + u32 / 2 ^ 13 % 2 ^ 10
  else
    let t : Nat := ((((exp : Int) - 112) * 2 ^ 10) % (2 : Int) ^ 32).toNat
    sgn + t / 2 ^ 10 % 2 ^ 5 * 2 ^ 10 + u32 / 2 ^ 13 % 2 ^ 10

/-- `floatU16ToU32`: widen a binary16 pattern to a binary32 pattern (exact
for normal halves; subnormal halves are shifted into the wrong binade, as
the source does). -/
def floatU16ToU32 (u16 : Nat) : Nat :=
  let exp := u16 / 2 ^ 10 % 2 ^ 5
  let sgn := u16 / 2 ^ 15 % 2 * 2 ^ 31
  if exp = 31 then sgn + 0x7F800000 + (if u16 % 2 ^ 10 ≠ 0 then 0x400000 else 0)
  else if exp = 0 then sgn + u16 % 2 ^ 10 * 2 ^ 13
  else sgn + (exp + 112) % 2 ^ 8 * 2 ^ 23 + u16 % 2 ^ 10 * 2 ^ 13

/-! ## JS values fed to / produced by the engine

`pack` consumes and `unpack` produces dynamically typed JS values.  The
embedding refines them into: exact-integer numbers (`int`), numbers given
by their binary64 pattern (`f64`) — two views of the one JS number type,
used respectively by the integer and the float codecs —, `BigInt`s,
booleans, and byte buffers. -/

inductive PackVal where
  | int (i : Int) : PackVal
  | f64 (bits : Nat) : PackVal
  | bigint (i : Int) : PackVal
  | bool (b : Bool) : PackVal
  | bytes (bs : List Nat) : PackVal
deriving DecidableEq

/-- JS truthiness, for `packFromBool`'s `vals.shift() ? 1 : 0`. -/
def truthy : PackVal → Bool
  | .int i => i ≠ 0
  | .f64 x => ¬(f64Exp x = 0 ∧ f64Frac x = 0) ∧ ¬isNaN64 x
  | .bigint i => i ≠ 0
  | .bool b => b
  | .bytes _ => true

/-- lodash `_.toSafeInteger` of a JS value: convert to a number, truncate
toward zero, clamp to `±(2^53 - 1)`.  `+bigint` throws a `TypeError`.
`ToNumber` of a `Uint8Array` goes through its comma-joined string: a
one-element buffer converts to its single byte, an empty one to 0, anything
longer to NaN (hence 0). -/
def toSafeIntegerVal : PackVal → Except JsError Int
  | .int i => .ok (max (-(2 ^ 53 - 1)) (min (2 ^ 53 - 1) i))
  | .f64 x => .ok (max (-(2 ^ 53 - 1)) (min (2 ^ 53 - 1) (f64TruncInt x)))
  | .bigint _ => .error .bigIntConversion
  | .bool b => .ok (if b then 1 else 0)
  | .bytes bs => .ok (match bs with
      | [] => 0
      | [b] => (b : Int)
      | _ => 0)

/-- `BigInt(value)` for the 64-bit codecs: exact for integers and exact
integral doubles, 0/1 for booleans; fractional doubles (`RangeError`) and
objects (`TypeError`) throw. -/
def bigIntFromVal : PackVal → Except JsError Int
  | .int i => .ok i
  | .bigint i => .ok i
  | .bool b => .ok (if b then 1 else 0)
  | .f64 x =>
      if f64Exp x = 2047 then .error .bigIntConversion
      else if intToF64 (f64TruncInt x) = x ∨ (f64Exp x = 0 ∧ f64Frac x = 0) then .ok (f64TruncInt x)
      else .error .bigIntConversion
  | .bytes _ => .error .bigIntConversion

/-- `ToNumber` of a JS value, as a binary64 pattern, for the float codecs
(`DataView` `setFloat*` applies it to the written value).  A `BigInt`
throws. -/
def numberFromVal : PackVal → Except JsError Nat
  | .f64 x => .ok x
  | .int i => .ok (intToF64 i)
  | .bool b => .ok (if b then intToF64 1 else 0)
  | .bigint _ => .error .bigIntConversion
  | .bytes bs => .ok (match bs with
      | [] => 0
      | [b] => intToF64 b
      | _ => 2047 * 2 ^ 52 + 2 ^ 51)

/-- `Buffer.from(value)` as used by the `c`/`s`/`p` codecs: a buffer/array
value yields a fresh byte buffer (entries reduced mod 256 by the
`Uint8Array` constructor); numbers, BigInts and booleans throw
`TypeError('Invalid type of value: ...')`. -/
def bufferFromVal : PackVal → Except JsError (List Nat)
  | .bytes bs => .ok (bs.map (· % 256))
  | _ => .error .invalidValueType

/-- `Buffer.prototype.copy(target, targetStart, sourceStart, sourceEnd)`:
clamps the source window to the room left in the target, copies, and
returns the new target plus the number of bytes copied. -/
def bufCopy (src : List Nat) (dst : List Nat) (dstStart srcStart srcEnd : Nat) :
    List Nat × Nat :=
  let s0 := subarrayList src srcStart srcEnd
  let room := dst.length - dstStart
  let s := if s0.length > room then s0.take room else s0
  (writeBytesAt dst dstStart s, s.length)

/-! ## The codec table (`packFromFns` / `unpackToFns`)

Each source codec mutates a shared context `{ buf, littleEndian, offset,
repeat, type, vals }`; here each is a function from the context (with the
item's `repeat`/`type` as explicit arguments) to an updated context, or an
error.  Pack-side errors carry the buffer state at throw time. -/

structure PackCtx where
  buf : List Nat
  littleEndian : Bool
  offset : Nat
  vals : List PackVal
deriving DecidableEq

/-- Result of one pack-side codec call. -/
abbrev PackM := Except (JsError × List Nat) PackCtx

/-- `packFromPad`: `for (i = 0; i < repeat; i++) buf[ctx.offset] = 0` —
note the loop writes the same index `ctx.offset` on every iteration (the
index does not advance with `i`) — then `ctx.offset += repeat`. -/
def packFromPad (rep : Nat) (ctx : PackCtx) : PackM :=
  let buf := if rep = 0 then ctx.buf else ctx.buf.set ctx.offset 0
  .ok { ctx with buf := buf, offset := ctx.offset + rep }

/-- Loop body shared by the scalar pack codecs: consume `rep` values, write
each with `write` (width `w`), advancing the offset. -/
def packScalarLoop (w : Nat) (write : List Nat → Nat → PackVal → Except JsError (List Nat)) :
    Nat → PackCtx → PackM
  | 0, ctx => .ok ctx
  | n + 1, ctx =>
    match ctx.vals with
    | [] => .error (.notEnoughVals, ctx.buf)
    | v :: rest =>
      match write ctx.buf ctx.offset v with
      | .error e => .error (e, ctx.buf)
      | .ok buf =>
        packScalarLoop w write n
          { ctx with buf := buf, offset := ctx.offset + w, vals := rest }

/-- `packFromChar`: `buf[ctx.offset] = Buffer.from(vals.shift())?.[0] ?? 0`
(the `Uint8Array` index assignment wraps mod 256 and ignores out-of-range
indices). -/
def packFromChar (rep : Nat) (ctx : PackCtx) : PackM :=
  packScalarLoop 1
    (fun buf off v => do
      let bs ← bufferFromVal v
      pure (buf.set off (bs.headD 0 % 256)))
    rep ctx

/-- `packFromInt8` (`b`/`B`): `writeInt8`/`writeUInt8` of
`_.toSafeInteger(vals.shift())` (both write the same byte). -/
def packFromInt8 (rep : Nat) (ctx : PackCtx) : PackM :=
  packScalarLoop 1
    (fun buf off v => do
      let i ← toSafeIntegerVal v
      pure (dvSet 1 ctx.littleEndian buf off i))
    rep ctx

/-- `packFromBool` (`?`): `writeUInt8(vals.shift() ? 1 : 0)`. -/
def packFromBool (rep : Nat) (ctx : PackCtx) : PackM :=
  packScalarLoop 1
    (fun buf off v => pure (dvSet 1 ctx.littleEndian buf off (if truthy v then 1 else 0)))
    rep ctx

/-- `packFromInt16` (`h`/`H`): `write(U)Int16BE/LE` of the safe integer. -/
def packFromInt16 (rep : Nat) (ctx : PackCtx) : PackM :=
  packScalarLoop 2
    (fun buf off v => do
      let i ← toSafeIntegerVal v
      pure (dvSet 2 ctx.littleEndian buf off i))
    rep ctx

/-- `packFromInt32` (`i`/`I`/`l`/`L`): `write(U)Int32BE/LE` of the safe
integer. -/
def packFromInt32 (rep : Nat) (ctx : PackCtx) : PackM :=
  packScalarLoop 4
    (fun buf off v => do
      let i ← toSafeIntegerVal v
      pure (dvSet 4 ctx.littleEndian buf off i))
    rep ctx

/-- `packFromBigInt64` (`q`/`Q`): `writeBig(U)Int64BE/LE` of
`BigInt(vals.shift())`. -/
def packFromBigInt64 (rep : Nat) (ctx : PackCtx) : PackM :=
  packScalarLoop 8
    (fun buf off v => do
      let i ← bigIntFromVal v
      pure (dvSet 8 ctx.littleEndian buf off i))
    rep ctx

/-- `packFromFloat16` (`e`): `writeFloat16BE/LE`, i.e. `setFloat32` into
the scratch view, `getUint32`, `floatU32ToU16`, then a 16-bit write. -/
def packFromFloat16 (rep : Nat) (ctx : PackCtx) : PackM :=
  packScalarLoop 2
    (fun buf off v => do
      let x ← numberFromVal v
      pure (dvSet 2 ctx.littleEndian buf off (floatU32ToU16 (f64ToF32 x))))
    rep ctx

/-- `packFromFloat` (`f`): `writeFloatBE/LE`, i.e. `setFloat32`. -/
def packFromFloat (rep : Nat) (ctx : PackCtx) : PackM :=
  packScalarLoop 4
    (fun buf off v => do
      let x ← numberFromVal v
      pure (dvSet 4 ctx.littleEndian buf off (f64ToF32 x)))
    rep ctx

/-- `packFromDouble` (`d`): `writeDoubleBE/LE`, i.e. `setFloat64`. -/
def packFromDouble (rep : Nat) (ctx : PackCtx) : PackM :=
  packScalarLoop 8
    (fun buf off v => do
      let x ← numberFromVal v
      pure (dvSet 8 ctx.littleEndian buf off x))
    rep ctx

/-- `packFromString` (`s`): build a zeroed `repeat`-byte scratch buffer,
copy the value into it (truncating / zero-padding), copy the scratch into
`buf` at the offset, advance by the scratch length (= `repeat`). -/
def packFromString (rep : Nat) (ctx : PackCtx) : PackM :=
  match ctx.vals with
  | [] => .error (.notEnoughVals, ctx.buf)
  | v :: rest =>
    match bufferFromVal v with
    | .error e => .error (e, ctx.buf)
    | .ok bs =>
      let buf1 := (bufCopy bs (List.replicate rep 0) 0 0 rep).1
      let buf := (bufCopy buf1 ctx.buf ctx.offset 0 buf1.length).1
      .ok { ctx with buf := buf, offset := ctx.offset + buf1.length, vals := rest }

/-- `packFromPascal` (`p`): like `s` but the copy lands at scratch offset 1,
is bounded by `repeat - 1`, and scratch byte 0 is set to the copied count.
(For `repeat = 0` the JS `repeat - 1 = -1` selects an end-relative source
window, but the empty scratch clamps the copy to zero bytes either way, so
the ℕ-subtraction model agrees.) -/
def packFromPascal (rep : Nat) (ctx : PackCtx) : PackM :=
  match ctx.vals with
  | [] => .error (.notEnoughVals, ctx.buf)
  | v :: rest =>
    match bufferFromVal v with
    | .error e => .error (e, ctx.buf)
    | .ok bs =>
      let copied := bufCopy bs (List.replicate rep 0) 1 0 (rep - 1)
      let buf1 := copied.1.set 0 (copied.2 % 256)
      let buf := (bufCopy buf1 ctx.buf ctx.offset 0 buf1.length).1
      .ok { ctx with buf := buf, offset := ctx.offset + buf1.length, vals := rest }

/-- The `packFromFns` dispatch map. -/
def packFromFn (t : Char) : Option (Nat → PackCtx → PackM) :=
  if t = 'x' then some packFromPad
  else if t = 'c' then some packFromChar
  else if t = 'b' ∨ t = 'B' then some packFromInt8
  else if t = '?' then some packFromBool
  else if t = 'h' ∨ t = 'H' then some packFromInt16
  else if t = 'i' ∨ t = 'I' ∨ t = 'l' ∨ t = 'L' then some packFromInt32
  else if t = 'q' ∨ t = 'Q' then some packFromBigInt64
  else if t = 'e' then some packFromFloat16
  else if t = 'f' then some packFromFloat
  else if t = 'd' then some packFromDouble
  else if t = 's' then some packFromString
  else if t = 'p' then some packFromPascal
  else none

/-- Loop body shared by the scalar unpack codecs: read `rep` values of
width `w` with `read`, appending to `ctx.vals`. -/
def unpackScalarLoop (w : Nat) (read : List Nat → Nat → PackVal) :
    Nat → PackCtx → PackCtx
  | 0, ctx => ctx
  | n + 1, ctx =>
    unpackScalarLoop w read n
      { ctx with vals := ctx.vals ++ [read ctx.buf ctx.offset], offset := ctx.offset + w }

/-- `unpackToPad` (`x`): advance the offset, produce nothing. -/
def unpackToPad (rep : Nat) (ctx : PackCtx) : PackCtx :=
  { ctx with offset := ctx.offset + rep }

/-- `unpackToChar` (`c`): push the one-byte subarray. -/
def unpackToChar (rep : Nat) (ctx : PackCtx) : PackCtx :=
  unpackScalarLoop 1 (fun buf off => .bytes (subarrayList buf off (off + 1))) rep ctx

/-- `unpackToInt8` (`b`/`B`): `readInt8` / `readUInt8`. -/
def unpackToInt8 (signed : Bool) (rep : Nat) (ctx : PackCtx) : PackCtx :=
  unpackScalarLoop 1
    (fun buf off =>
      .int (if signed then dvGetInt 1 ctx.littleEndian buf off
            else (dvGetUint 1 ctx.littleEndian buf off : Int)))
    rep ctx

/-- `unpackToBool` (`?`): `readUInt8(..) !== 0`. -/
def unpackToBool (rep : Nat) (ctx : PackCtx) : PackCtx :=
  unpackScalarLoop 1
    (fun buf off => .bool (dvGetUint 1 ctx.littleEndian buf off ≠ 0)) rep ctx

/-- `unpackToInt16` (`h`/`H`). -/
def unpackToInt16 (signed : Bool) (rep : Nat) (ctx : PackCtx) : PackCtx :=
  unpackScalarLoop 2
    (fun buf off =>
      .int (if signed then dvGetInt 2 ctx.littleEndian buf off
            else (dvGetUint 2 ctx.littleEndian buf off : Int)))
    rep ctx

/-- `unpackToInt32` (`i`/`I`/`l`/`L`). -/
def unpackToInt32 (signed : Bool) (rep : Nat) (ctx : PackCtx) : PackCtx :=
  unpackScalarLoop 4
    (fun buf off =>
      .int (if signed then dvGetInt 4 ctx.littleEndian buf off
            else (dvGetUint 4 ctx.littleEndian buf off : Int)))
    rep ctx

/-- `unpackToBigInt64` (`q`/`Q`): the results are `BigInt`s. -/
def unpackToBigInt64 (signed : Bool) (rep : Nat) (ctx : PackCtx) : PackCtx :=
  unpackScalarLoop 8
    (fun buf off =>
      .bigint (if signed then dvGetInt 8 ctx.littleEndian buf off
               else (dvGetUint 8 ctx.littleEndian buf off : Int)))
    rep ctx

/-- `unpackToFloat16` (`e`): 16-bit read, `floatU16ToU32`, `getFloat32`. -/
def unpackToFloat16 (rep : Nat) (ctx : PackCtx) : PackCtx :=
  unpackScalarLoop 2
    (fun buf off => .f64 (f32ToF64 (floatU16ToU32 (dvGetUint 2 ctx.littleEndian buf off))))
    rep ctx

/-- `unpackToFloat` (`f`): `getFloat32` widened to a double. -/
def unpackToFloat (rep : Nat) (ctx : PackCtx) : PackCtx :=
  unpackScalarLoop 4
    (fun buf off => .f64 (f32ToF64 (dvGetUint 4 ctx.littleEndian buf off)))
    rep ctx

/-- `unpackToDouble` (`d`): `getFloat64`. -/
def unpackToDouble (rep : Nat) (ctx : PackCtx) : PackCtx :=
  unpackScalarLoop 8
    (fun buf off => .f64 (dvGetUint 8 ctx.littleEndian buf off))
    rep ctx

/-- `unpackToString` (`s`): push the `repeat`-byte subarray (any zero
padding included). -/
def unpackToString (rep : Nat) (ctx : PackCtx) : PackCtx :=
  { ctx with vals := ctx.vals ++ [.bytes (subarrayList ctx.buf ctx.offset (ctx.offset + rep))],
             offset := ctx.offset + rep }

/-- `unpackToPascal` (`p`): decode `min(buf[offset], repeat - 1)` bytes
after the length prefix, advance by the whole field.  (For `repeat = 0` the
JS `Math.min(.., -1)` yields an empty end-relative subarray; the
ℕ-subtraction model yields the same empty value.) -/
def unpackToPascal (rep : Nat) (ctx : PackCtx) : PackCtx :=
  let len := min (getByteD ctx.buf ctx.offset) (rep - 1)
  { ctx with vals := ctx.vals ++ [.bytes (subarrayList ctx.buf (ctx.offset + 1) (ctx.offset + 1 + len))],
             offset := ctx.offset + rep }

/-- The `unpackToFns` dispatch map. -/
def unpackToFn (t : Char) : Option (Nat → PackCtx → PackCtx) :=
  if t = 'x' then some unpackToPad
  else if t = 'c' then some unpackToChar
  else if t = 'b' then some (unpackToInt8 true)
  else if t = 'B' then some (unpackToInt8 false)
  else if t = '?' then some unpackToBool
  else if t = 'h' then some (unpackToInt16 true)
  else if t = 'H' then some (unpackToInt16 false)
  else if t = 'i' ∨ t = 'l' then some (unpackToInt32 true)
  else if t = 'I' ∨ t = 'L' then some (unpackToInt32 false)
  else if t = 'q' then some (unpackToBigInt64 true)
  else if t = 'Q' then some (unpackToBigInt64 false)
  else if t = 'e' then some unpackToFloat16
  else if t = 'f' then some unpackToFloat
  else if t = 'd' then some unpackToDouble
  else if t = 's' then some unpackToString
  else if t = 'p' then some unpackToPascal
  else none

/-! ## The pack / unpack / iterUnpack drivers -/

/-- One iteration of the item loop of `Buffer.pack`: look the type code up
in the dispatch map (unknown codes fail) and run the codec. -/
def packOne (rep : Nat) (t : Char) (ctx : PackCtx) : PackM :=
  match packFromFn t with
  | none => .error (.unknownFormat rep t, ctx.buf)
  | some fn => fn rep ctx

/-- The item loop of `Buffer.pack`: dispatch each `(repeat, type)` item to
its codec, threading the context. -/
def packItems : List (Nat × Char) → PackCtx → PackM
  | [], ctx => .ok ctx
  | (rep, t) :: rest, ctx =>
    match packOne rep t ctx with
    | .error e => .error e
    | .ok ctx' => packItems rest ctx'

/-- One iteration of the item loop of `Buffer.unpack`. -/
def unpackOne (rep : Nat) (t : Char) (ctx : PackCtx) : Except JsError PackCtx :=
  match unpackToFn t with
  | none => .error (.unknownFormat rep t)
  | some fn => .ok (fn rep ctx)

/-- The item loop of `Buffer.unpack` / `Buffer.iterUnpack`. -/
def unpackItems : List (Nat × Char) → PackCtx → Except JsError PackCtx
  | [], ctx => .ok ctx
  | (rep, t) :: rest, ctx =>
    match unpackOne rep t ctx with
    | .error e => .error e
    | .ok ctx' => unpackItems rest ctx'

/-- `Buffer.pack`.  `bufArg = none` models the call without an explicit
buffer (after the source's argument shuffling), in which case a fresh
zeroed buffer of the required size is allocated.  On success the returned
buffer is the packed one; a thrown error is paired with the buffer state
visible to the caller at throw time (`none` when no buffer was supplied,
the unmodified input for errors raised before the write loop). -/
def pack (nle : Bool) (bufArg : Option (List Nat)) (format : String)
    (vals : List PackVal) : Except (JsError × Option (List Nat)) (List Nat) :=
  match packParseFormat nle format with
  | .error e => .error (e, bufArg)
  | .ok fmt =>
    let lenRequired := packCalcSize fmt.items
    let buf := bufArg.getD (List.replicate lenRequired 0)
    if buf.length < lenRequired then .error (.bufTooSmall buf.length lenRequired, bufArg)
    else
      match packItems fmt.items
          { buf := buf, littleEndian := fmt.littleEndian, offset := 0, vals := vals } with
      | .error (e, b) => .error (e, if bufArg.isSome then some b else none)
      | .ok ctx => .ok ctx.buf

/-- `Buffer.unpack`. -/
def unpack (nle : Bool) (buf : List Nat) (format : String) :
    Except JsError (List PackVal) :=
  match packParseFormat nle format with
  | .error e => .error e
  | .ok fmt =>
    let lenRequired := packCalcSize fmt.items
    if buf.length < lenRequired then .error (.bufTooSmall buf.length lenRequired)
    else
      match unpackItems fmt.items
          { buf := buf, littleEndian := fmt.littleEndian, offset := 0, vals := [] } with
      | .error e => .error e
      | .ok ctx => .ok ctx.vals

/-- `Buffer.iterUnpack`, modelled as the stream of its yields: the
generator checks the preconditions eagerly, then repeatedly unpacks the
current window and drops `lenRequired` bytes (`buf = buf.subarray(len)`),
while at least `lenRequired` bytes remain.  `iterUnpackNth nle buf fmt n`
is the `n`-th element the generator yields: an error from the eager
checks, `some tuple` when iteration `n` is reached, `none` when the
generator finishes first. -/
def iterUnpackNth (nle : Bool) (buf : List Nat) (format : String) (n : Nat) :
    Except JsError (Option (List PackVal)) :=
  match packParseFormat nle format with
  | .error e => .error e
  | .ok fmt =>
    let lenRequired := packCalcSize fmt.items
    if buf.length < lenRequired then .error (.bufTooSmall buf.length lenRequired)
    else
      let window := buf.drop (n * lenRequired)
      if lenRequired ≤ window.length then
        match unpackItems fmt.items
            { buf := window, littleEndian := fmt.littleEndian, offset := 0, vals := [] } with
        | .error e => .error e
        | .ok ctx => .ok (some ctx.vals)
      else .ok none

/-! ## Byte-level lemmas -/

theorem getByteD_set_ne (buf : List Nat) (i j b : Nat) (h : i ≠ j) :
    getByteD (buf.set i b) j = getByteD buf j := by
  simp only [getByteD, List.getD_eq_getElem?_getD, List.getElem?_set_ne h]

theorem getByteD_set_self (buf : List Nat) (i b : Nat) (h : i < buf.length) :
    getByteD (buf.set i b) i = b := by
  simp [getByteD, List.getD_eq_getElem?_getD, List.getElem?_set_self', List.getElem?_eq_getElem h]

theorem writeBytesAt_length (bs : List Nat) : ∀ (buf : List Nat) (off : Nat),
    (writeBytesAt buf off bs).length = buf.length := by
  induction bs with
  | nil => intro buf off; rfl
  | cons b bs ih =>
    intro buf off
    simp [writeBytesAt, ih, List.length_set]

theorem getByteD_writeBytesAt_lt (bs : List Nat) : ∀ (buf : List Nat) (off j : Nat),
    j < off → getByteD (writeBytesAt buf off bs) j = getByteD buf j := by
  induction bs with
  | nil => intro buf off j _; rfl
  | cons b bs ih =>
    intro buf off j h
    rw [writeBytesAt, ih _ _ _ (by omega), getByteD_set_ne _ _ _ _ (by omega)]

theorem getByteD_writeBytesAt_ge (bs : List Nat) : ∀ (buf : List Nat) (off j : Nat),
    off + bs.length ≤ j → getByteD (writeBytesAt buf off bs) j = getByteD buf j := by
  induction bs with
  | nil => intro buf off j _; rfl
  | cons b bs ih =>
    intro buf off j h
    simp only [List.length_cons] at h
    rw [writeBytesAt, ih _ _ _ (by omega), getByteD_set_ne _ _ _ _ (by omega)]

theorem getByteD_writeBytesAt_inb (bs : List Nat) : ∀ (buf : List Nat) (off k : Nat),
    k < bs.length → off + bs.length ≤ buf.length →
    getByteD (writeBytesAt buf off bs) (off + k) = bs.getD k 0 := by
  induction bs with
  | nil => intro buf off k h _; simp at h
  | cons b bs ih =>
    intro buf off k hk hlen
    simp only [List.length_cons] at hk hlen
    rw [writeBytesAt]
    match k with
    | 0 =>
      rw [getByteD_writeBytesAt_lt _ _ _ _ (by omega)]
      simpa using getByteD_set_self buf off b (by omega)
    | k + 1 =>
      have : off + (k + 1) = (off + 1) + k := by omega
      rw [this, ih _ _ _ (by omega) (by simp [List.length_set]; omega)]
      rfl

theorem readBytesAt_writeBytesAt (bs buf : List Nat) (off : Nat)
    (h : off + bs.length ≤ buf.length) :
    readBytesAt (writeBytesAt buf off bs) off bs.length = bs := by
  apply List.ext_getElem
  · simp [readBytesAt]
  · intro i h1 h2
    simp only [readBytesAt, List.getElem_map, List.getElem_range]
    rw [getByteD_writeBytesAt_inb _ _ _ _ (by simpa [readBytesAt] using h1) h]
    exact List.getD_eq_getElem bs 0 h2

theorem natFromBytesLE_natToBytesLE (w : Nat) : ∀ n : Nat,
    natFromBytesLE (natToBytesLE w n) = n % 2 ^ (8 * w) := by
  induction w with
  | zero => intro n; simp [natToBytesLE, natFromBytesLE, Nat.mod_one]
  | succ w ih =>
    intro n
    rw [natToBytesLE, natFromBytesLE, ih]
    have h1 : 2 ^ (8 * (w + 1)) = 256 * 2 ^ (8 * w) := by ring
    rw [h1, Nat.mod_mul]

theorem natToBytesLE_length (w : Nat) : ∀ n : Nat, (natToBytesLE w n).length = w := by
  induction w with
  | zero => intro n; rfl
  | succ w ih => intro n; simp [natToBytesLE, ih]

theorem natToBytesBE_length (w n : Nat) : (natToBytesBE w n).length = w := by
  simp [natToBytesBE, natToBytesLE_length]

theorem natFromBytesBE_natToBytesBE (w n : Nat) :
    natFromBytesBE (natToBytesBE w n) = n % 2 ^ (8 * w) := by
  simp [natFromBytesBE, natToBytesBE, natFromBytesLE_natToBytesLE]

/-! ## DataView round-trip lemmas -/

theorem dvSet_length (w : Nat) (le : Bool) (buf : List Nat) (off : Nat) (v : Int) :
    (dvSet w le buf off v).length = buf.length := by
  unfold dvSet
  cases le <;> simp [writeBytesAt_length]

theorem readBytesAt_writeBytesAt_len (bs buf : List Nat) (off w : Nat)
    (hw : bs.length = w) (h : off + w ≤ buf.length) :
    readBytesAt (writeBytesAt buf off bs) off w = bs := by
  subst hw
  exact readBytesAt_writeBytesAt bs buf off h

theorem dvGetUint_dvSet (w : Nat) (le : Bool) (buf : List Nat) (off : Nat) (v : Int)
    (hoff : off + w ≤ buf.length) (hv : 0 ≤ v) (hlt : v < 2 ^ (8 * w)) :
    dvGetUint w le (dvSet w le buf off v) off = v.toNat := by
  have hmod : (v % (2 : Int) ^ (8 * w)).toNat = v.toNat := by
    rw [Int.emod_eq_of_lt hv (by exact_mod_cast hlt)]
  have hvn : v.toNat < 2 ^ (8 * w) := by
    have hcast : ((2 : Int) ^ (8 * w)) = ((2 ^ (8 * w) : Nat) : Int) := by push_cast; ring
    rw [hcast] at hlt; omega
  cases le
  · show natFromBytesBE (readBytesAt (writeBytesAt buf off (natToBytesBE w _)) off w) = _
    rw [readBytesAt_writeBytesAt_len _ _ _ _ (natToBytesBE_length _ _) hoff,
      natFromBytesBE_natToBytesBE, hmod, Nat.mod_eq_of_lt hvn]
  · show natFromBytesLE (readBytesAt (writeBytesAt buf off (natToBytesLE w _)) off w) = _
    rw [readBytesAt_writeBytesAt_len _ _ _ _ (natToBytesLE_length _ _) hoff,
      natFromBytesLE_natToBytesLE, hmod, Nat.mod_eq_of_lt hvn]

theorem dvGetUint_dvSet_nat (w : Nat) (le : Bool) (buf : List Nat) (off : Nat) (n : Nat)
    (hoff : off + w ≤ buf.length) (hlt : n < 2 ^ (8 * w)) :
    dvGetUint w le (dvSet w le buf off n) off = n := by
  rw [dvGetUint_dvSet w le buf off n hoff (by positivity) (by exact_mod_cast hlt)]
  simp

theorem dvGetInt_dvSet (w : Nat) (le : Bool) (buf : List Nat) (off : Nat) (v : Int)
    (hw : 1 ≤ w) (hoff : off + w ≤ buf.length)
    (hlo : -(2 ^ (8 * w - 1)) ≤ v) (hhi : v < 2 ^ (8 * w - 1)) :
    dvGetInt w le (dvSet w le buf off v) off = v := by
  have hcast1 : ((2 : Int) ^ (8 * w - 1)) = ((2 ^ (8 * w - 1) : Nat) : Int) := by
    push_cast; ring
  have hcast2 : ((2 : Int) ^ (8 * w)) = ((2 ^ (8 * w) : Nat) : Int) := by
    push_cast; ring
  have hpow : (2 ^ (8 * w - 1) : Nat) * 2 = 2 ^ (8 * w) := by
    have h : 8 * w - 1 + 1 = 8 * w := by omega
    conv_rhs => rw [← h, pow_succ]
  rcases le_or_lt 0 v with hv | hv
  · have hlt : v < 2 ^ (8 * w) := by
      rw [hcast2]; rw [hcast1] at hhi; omega
    unfold dvGetInt
    rw [dvGetUint_dvSet w le buf off v hoff hv hlt, if_pos ?pos]
    · simp [Int.toNat_of_nonneg hv]
    case pos => rw [hcast1] at hhi; omega
  · -- negative values wrap to the upper half of the range
    have h0 : (0 : Int) ≤ v + 2 ^ (8 * w) := by
      rw [hcast2]; rw [hcast1] at hlo; omega
    have hup : v + 2 ^ (8 * w) < 2 ^ (8 * w) := by omega
    have hwrap : v % (2 : Int) ^ (8 * w) = v + 2 ^ (8 * w) := by
      conv_lhs => rw [show v = (v + 2 ^ (8 * w)) + 2 ^ (8 * w) * (-1) by ring]
      rw [Int.add_mul_emod_self_left]
      exact Int.emod_eq_of_lt h0 hup
    have hset : dvSet w le buf off v = dvSet w le buf off (v + 2 ^ (8 * w)) := by
      unfold dvSet
      rw [hwrap, Int.emod_eq_of_lt h0 hup]
    unfold dvGetInt
    rw [hset, dvGetUint_dvSet w le buf off _ hoff h0 hup, if_neg ?neg]
    · rw [Int.toNat_of_nonneg h0]; ring
    case neg =>
      rw [hcast2] at h0 ⊢
      rw [hcast1] at hlo
      omega
/-! ## Parser lemmas -/

theorem parseItemsAux_p_clamped : ∀ (cs : List Char) (acc : Option Nat)
    (items : List (Nat × Char)), parseItemsAux cs acc = some items →
    ∀ r t, (r, t) ∈ items → t = 'p' → r ≤ 255 := by
  intro cs
  induction cs with
  | nil =>
    intro acc items h r t hmem _
    cases acc <;> simp [parseItemsAux] at h
    subst h; simp at hmem
  | cons c cs ih =>
    intro acc items h r t hmem hp
    by_cases hd : c.isDigit
    · rw [parseItemsAux, if_pos hd] at h
      exact ih _ _ h r t hmem hp
    · by_cases ht : isPackTypeCode c
      · rw [parseItemsAux, if_neg hd, if_pos ht] at h
        cases hrest : parseItemsAux cs none with
        | none => rw [hrest] at h; simp at h
        | some rest =>
          rw [hrest] at h
          simp only [Option.map_some'] at h
          cases h
          rcases List.mem_cons.mp hmem with hhd | htl
          · cases hhd
            subst hp
            unfold clampRepeat
            split
            · omega
            · next hcl => push_neg at hcl; exact hcl rfl
          · exact ih _ _ hrest r t htl hp
      · rw [parseItemsAux, if_neg hd, if_neg ht] at h
        simp at h

/-- The dead state of the grammar DFA absorbs. -/
theorem fmtStep_dead : ∀ (cs : List Char), List.foldl fmtStep 4 cs = 4 := by
  intro cs
  induction cs with
  | nil => rfl
  | cons c cs ih =>
    have hstep : fmtStep 4 c = 4 := by
      unfold fmtStep
      norm_num
    rw [List.foldl_cons, hstep, ih]

/-- From any mid-body state (2 = digits pending, 3 = item complete) the DFA
transition agrees with the tokenizer's character dispatch. -/
theorem fmtStep_body (c : Char) (st : Nat) (h : st = 2 ∨ st = 3) :
    fmtStep st c =
      (if c.isDigit then 2 else if isPackTypeCode c then 3 else 4) := by
  unfold fmtStep
  rcases h with h | h <;> subst h <;> norm_num

/-- The tokenizer succeeds exactly when the DFA, started in the state that
matches the accumulator (2 with digits pending, 3 otherwise), ends in the
accepting state. -/
theorem parseItemsAux_isSome_iff_fold : ∀ (cs : List Char) (acc : Option Nat),
    (parseItemsAux cs acc).isSome = true ↔
      List.foldl fmtStep (match acc with | none => 3 | some _ => 2) cs = 3 := by
  intro cs
  induction cs with
  | nil =>
    intro acc
    cases acc <;> simp [parseItemsAux]
  | cons c cs ih =>
    intro acc
    have hst : (match acc with | none => 3 | some _ => 2) = 2 ∨
        (match acc with | none => 3 | some _ => 2) = 3 := by
      cases acc <;> simp
    rw [List.foldl_cons, fmtStep_body c _ hst]
    by_cases hd : c.isDigit
    · rw [parseItemsAux, if_pos hd, if_pos hd]
      exact ih (some _)
    · by_cases ht : isPackTypeCode c
      · rw [parseItemsAux, if_neg hd, if_pos ht, if_neg hd, if_pos ht]
        rw [← ih none]
        cases parseItemsAux cs none <;> simp
      · rw [parseItemsAux, if_neg hd, if_neg ht, if_neg hd, if_neg ht]
        simp [fmtStep_dead]

/-- Helper: states 1 and 3 step identically. -/
theorem fmtStep_one_eq_three (c : Char) : fmtStep 1 c = fmtStep 3 c := by
  unfold fmtStep
  norm_num

/-- Helper: on a non-prefix character, state 0 steps like state 3. -/
theorem fmtStep_zero_eq_three (c : Char) (h : isByteOrderPrefix c = false) :
    fmtStep 0 c = fmtStep 3 c := by
  unfold fmtStep
  rw [h]
  norm_num

/-- `packParseFormat` fails — with the malformed-format error — on every
string the grammar DFA rejects. -/
theorem packParseFormat_fails (nle : Bool) (s : String)
    (h : fmtAccepts s = false) :
    packParseFormat nle s = .error (.invalidFormat s) := by
  cases s with
  | mk cs =>
    unfold fmtAccepts at h
    simp only [decide_eq_false_iff_not] at h
    unfold packParseFormat
    cases cs with
    | nil => rfl
    | cons c rest =>
      by_cases hpre : isByteOrderPrefix c
      · -- prefixed: body is the tail
        simp only [hpre, if_pos rfl, if_true]
        cases rest with
        | nil =>
          -- prefix only: parser rejects the empty body
          rfl
        | cons c' rest' =>
          have hfold : List.foldl fmtStep 0 (c :: c' :: rest') =
              List.foldl fmtStep 3 (c' :: rest') := by
            rw [List.foldl_cons]
            have h0 : fmtStep 0 c = 1 := by
              unfold fmtStep
              rw [hpre]
              norm_num
            rw [h0, List.foldl_cons, fmtStep_one_eq_three, ← List.foldl_cons]
          rw [hfold] at h
          have hnone : parseItemsAux (c' :: rest') none = none := by
            cases hp : parseItemsAux (c' :: rest') none with
            | none => rfl
            | some items =>
              exfalso
              apply h
              rw [← parseItemsAux_isSome_iff_fold (c' :: rest') none]
              simp [hp]
          simp [hnone]
      · -- unprefixed: the whole string is the body
        have hpre' : isByteOrderPrefix c = false := by
          simpa using hpre
        simp only [hpre', if_false, Bool.false_eq_true]
        have hfold : List.foldl fmtStep 0 (c :: rest) =
            List.foldl fmtStep 3 (c :: rest) := by
          rw [List.foldl_cons, fmtStep_zero_eq_three c hpre', ← List.foldl_cons]
        rw [hfold] at h
        have hnone : parseItemsAux (c :: rest) none = none := by
          cases hp : parseItemsAux (c :: rest) none with
          | none => rfl
          | some items =>
            exfalso
            apply h
            rw [← parseItemsAux_isSome_iff_fold (c :: rest) none]
            simp [hp]
        simp [hnone]

/-! ## Claim C7 — parser error conditions -/

/-- C7: `packParseFormat` fails with an error for every string that does not
match the grammar `^([@=<>!]?)((?:\d*[xcbB?hHiIlLqQefdsp])+)$` (stated via
the independent grammar DFA `fmtAccepts`); in particular every string that
is a byte-order prefix with zero type codes fails rather than succeeding
with an empty items list, and every non-string argument fails with the
`TypeError`-kind error. -/
theorem packParseFormat_error_conditions :
    (∀ (nle : Bool) (s : String), fmtAccepts s = false →
      packParseFormat nle s = .error (.invalidFormat s)) ∧
    (∀ (nle : Bool) (c : Char), isByteOrderPrefix c = true →
      packParseFormat nle (String.mk [c]) = .error (.invalidFormat (String.mk [c]))) ∧
    (∀ (nle : Bool) (tag : String),
      packParseFormatArg nle (.nonString tag) = .error .invalidFormatType) := by
  refine ⟨packParseFormat_fails, ?_, fun _ _ => rfl⟩
  intro nle c hpre
  apply packParseFormat_fails
  unfold fmtAccepts
  have h0 : fmtStep 0 c = 1 := by
    unfold fmtStep
    rw [hpre]
    norm_num
  simp [h0]

/-- Witness for C7 at concrete inputs. -/
theorem packParseFormat_error_conditions_witness :
    packParseFormat true "z!" = .error (.invalidFormat "z!") ∧
    packParseFormat true "<" = .error (.invalidFormat "<") ∧
    packParseFormatArg true (.nonString "42") = .error .invalidFormatType :=
  ⟨packParseFormat_error_conditions.1 true "z!" (by decide),
   packParseFormat_error_conditions.2.1 true '<' (by decide),
   packParseFormat_error_conditions.2.2 true "42"⟩

/-! ## Claim C6 — Pascal repeat clamp -/

/-- C6: every `p` item the parser produces has its repeat clamped to at
most 255 (never a failure), and concretely `packParseFormat "256p"` parses
to the single item `(255, 'p')`. -/
theorem packParseFormat_pascal_clamp :
    (∀ (nle : Bool) (s : String) (f : PackFormat) (r : Nat),
      packParseFormat nle s = .ok f → (r, 'p') ∈ f.items → r ≤ 255) ∧
    (∀ nle : Bool, ∃ f : PackFormat,
      packParseFormat nle "256p" = .ok f ∧ f.items = [(255, 'p')]) := by
  constructor
  · intro nle s f r h hmem
    cases s with
    | mk cs =>
      cases cs with
      | nil => simp [packParseFormat, parseItemsAux] at h
      | cons c rest =>
        unfold packParseFormat at h
        by_cases hpre : isByteOrderPrefix c
        · simp only [hpre, if_true] at h
          cases hp : parseItemsAux rest none with
          | none => rw [hp] at h; exact absurd h (by simp)
          | some items =>
            rw [hp] at h
            by_cases hemp : rest.isEmpty
            · simp only [hemp, if_true] at h
              exact absurd h (by simp)
            · simp only [hemp, Bool.false_eq_true, if_false, Except.ok.injEq] at h
              have hitems : f.items = items := by rw [← h]
              rw [hitems] at hmem
              exact parseItemsAux_p_clamped rest none items hp r 'p' hmem rfl
        · have hpre' : isByteOrderPrefix c = false := by simpa using hpre
          simp only [hpre', Bool.false_eq_true, if_false] at h
          cases hp : parseItemsAux (c :: rest) none with
          | none => rw [hp] at h; exact absurd h (by simp)
          | some items =>
            rw [hp] at h
            simp only [List.isEmpty_cons, if_false, Bool.false_eq_true,
              Except.ok.injEq] at h
            have hitems : f.items = items := by rw [← h]
            rw [hitems] at hmem
            exact parseItemsAux_p_clamped (c :: rest) none items hp r 'p' hmem rfl
  · intro nle
    exact ⟨⟨nle, [(255, 'p')]⟩, rfl, rfl⟩

/-- Witness for C6 at concrete inputs. -/
theorem packParseFormat_pascal_clamp_witness :
    (255 : Nat) ≤ 255 ∧ ∃ f : PackFormat,
      packParseFormat true "256p" = .ok f ∧ f.items = [(255, 'p')] :=
  ⟨packParseFormat_pascal_clamp.1 true "999p" ⟨true, [(255, 'p')]⟩ 255
      rfl (by decide),
   packParseFormat_pascal_clamp.2 true⟩

/-! ## Claim C8 — capacity precondition -/

/-- C8: packing into a caller-supplied buffer shorter than the format's
required size fails with the range error carrying both the actual and the
required lengths, and the buffer is returned unmodified (the check precedes
all writes); `unpack` and `iterUnpack` apply the same precondition. -/
theorem pack_buffer_too_small :
    ∀ (nle : Bool) (buf : List Nat) (fmt : String) (vals : List PackVal)
      (f : PackFormat), packParseFormat nle fmt = .ok f →
      buf.length < packCalcSize f.items →
      pack nle (some buf) fmt vals =
          .error (.bufTooSmall buf.length (packCalcSize f.items), some buf) ∧
      unpack nle buf fmt = .error (.bufTooSmall buf.length (packCalcSize f.items)) ∧
      (∀ n, iterUnpackNth nle buf fmt n =
          .error (.bufTooSmall buf.length (packCalcSize f.items))) := by
  intro nle buf fmt vals f h hlt
  refine ⟨?_, ?_, fun n => ?_⟩
  · unfold pack
    rw [h]
    simp [hlt]
  · unfold unpack
    rw [h]
    simp [hlt]
  · unfold iterUnpackNth
    rw [h]
    simp [hlt]

/-- Witness for C8 at concrete inputs. -/
theorem pack_buffer_too_small_witness :
    pack true (some [7]) "<h" [.int 2] = .error (.bufTooSmall 1 2, some [7]) ∧
    unpack true [7] "<h" = .error (.bufTooSmall 1 2) ∧
    (∀ n, iterUnpackNth true [7] "<h" n = .error (.bufTooSmall 1 2)) :=
  pack_buffer_too_small true [7] "<h" [.int 2] ⟨true, [(1, 'h')]⟩
    rfl (by decide)

/-! ## Claim C2 — pad-byte zeroing (code bug)

`packFromPad`'s loop `for (let i = 0; i < repeat; i++) buf[ctx.offset] = 0`
writes index `ctx.offset` on every iteration, so only the first byte of a
multi-byte pad field is zeroed; the spec (and Python-struct parity, which
the source documentation cites) requires all `repeat` bytes to be zeroed.
The divergence is observable on a caller-supplied dirty buffer. -/

/-- C2 (evaluation at the failing input): packing `'2x'` into the
caller-supplied buffer `[0xFF, 0xFF]` zeroes only byte 0 and leaves byte 1
equal to `0xFF`, while the spec requires both pad bytes to be written as
zero.  (No values are consumed, as claimed.) -/
theorem packFromPad_bug_eval :
    pack true (some [255, 255]) "2x" [] = .ok [0, 255] ∧
    packFromPad 2 { buf := [255, 255], littleEndian := true, offset := 0, vals := [] } =
      .ok { buf := [0, 255], littleEndian := true, offset := 2, vals := [] } := by
  constructor <;> rfl

/-! ## Claim C5 — byte-order layout -/

/-- Helper: the byte order a prefixed format resolves to. -/
theorem packParseFormat_prefixed_ok (nle : Bool) (c : Char) (cs : List Char)
    (f : PackFormat) (hpre : isByteOrderPrefix c = true)
    (h : packParseFormat nle (String.mk (c :: cs)) = .ok f) :
    f.littleEndian =
      (if (some c : Option Char) ∈ [none, some '@', some '='] then nle
       else decide (some c = some '<')) := by
  unfold packParseFormat at h
  simp only [hpre, if_true] at h
  cases hp : parseItemsAux cs none with
  | none => rw [hp] at h; exact absurd h (by simp)
  | some items =>
    rw [hp] at h
    by_cases hemp : cs.isEmpty
    · simp only [hemp, if_true] at h
      exact absurd h (by simp)
    · simp only [hemp, Bool.false_eq_true, if_false, Except.ok.injEq] at h
      rw [← h]

/-- C5: a `'<'` byte-order prefix resolves to little-endian and `'>'`/`'!'`
resolve to big-endian; the resolved order drives every multi-byte scalar
write (big-endian is byte-reversed little-endian); and concretely
`pack('<i', 0x01020304)` lays out `04 03 02 01` while `pack('>i', ..)` lays
out `01 02 03 04`. -/
theorem pack_byte_order :
    (∀ (nle : Bool) (cs : List Char) (f : PackFormat),
      packParseFormat nle (String.mk ('<' :: cs)) = .ok f → f.littleEndian = true) ∧
    (∀ (nle : Bool) (cs : List Char) (f : PackFormat),
      packParseFormat nle (String.mk ('>' :: cs)) = .ok f → f.littleEndian = false) ∧
    (∀ (nle : Bool) (cs : List Char) (f : PackFormat),
      packParseFormat nle (String.mk ('!' :: cs)) = .ok f → f.littleEndian = false) ∧
    (∀ w n, natToBytesBE w n = (natToBytesLE w n).reverse) ∧
    (∀ nle, pack nle none "<i" [.int 0x01020304] = .ok [0x04, 0x03, 0x02, 0x01]) ∧
    (∀ nle, pack nle none ">i" [.int 0x01020304] = .ok [0x01, 0x02, 0x03, 0x04]) := by
  refine ⟨?_, ?_, ?_, fun w n => rfl, fun nle => rfl, fun nle => rfl⟩
  · intro nle cs f h
    rw [packParseFormat_prefixed_ok nle '<' cs f (by decide) h,
      if_neg (by decide)]
    decide
  · intro nle cs f h
    rw [packParseFormat_prefixed_ok nle '>' cs f (by decide) h,
      if_neg (by decide)]
    decide
  · intro nle cs f h
    rw [packParseFormat_prefixed_ok nle '!' cs f (by decide) h,
      if_neg (by decide)]
    decide

/-- Witness for C5 at concrete inputs. -/
theorem pack_byte_order_witness :
    (⟨true, [(1, 'i')]⟩ : PackFormat).littleEndian = true ∧
    (⟨false, [(1, 'i')]⟩ : PackFormat).littleEndian = false ∧
    pack true none "<i" [.int 0x01020304] = .ok [0x04, 0x03, 0x02, 0x01] ∧
    pack true none ">i" [.int 0x01020304] = .ok [0x01, 0x02, 0x03, 0x04] :=
  ⟨pack_byte_order.1 true ['i'] ⟨true, [(1, 'i')]⟩ rfl,
   pack_byte_order.2.1 true ['i'] ⟨false, [(1, 'i')]⟩ rfl,
   pack_byte_order.2.2.2.2.1 true,
   pack_byte_order.2.2.2.2.2 true⟩

/-! ## Claim C9 — lazy value-exhaustion failure -/

/-- An item whose pack codec consumes at least one value from `vals` before
doing anything else: every scalar code with a positive repeat, and `s`/`p`
with any repeat. -/
def consumesVals (item : Nat × Char) : Prop :=
  (item.2 ∈ ['c', 'b', 'B', '?', 'h', 'H', 'i', 'I', 'l', 'L', 'q', 'Q', 'e', 'f', 'd'] ∧
    1 ≤ item.1) ∨ item.2 ∈ ['s', 'p']

instance (item : Nat × Char) : Decidable (consumesVals item) := by
  unfold consumesVals; infer_instance

/-- `packItems` distributes over list append. -/
theorem packItems_append (l₁ l₂ : List (Nat × Char)) : ∀ ctx : PackCtx,
    packItems (l₁ ++ l₂) ctx =
      (match packItems l₁ ctx with
       | .ok ctx' => packItems l₂ ctx'
       | .error e => .error e) := by
  induction l₁ with
  | nil => intro ctx; rfl
  | cons it rest ih =>
    intro ctx
    obtain ⟨r, t⟩ := it
    rw [List.cons_append]
    show packItems ((r, t) :: (rest ++ l₂)) ctx = _
    simp only [packItems]
    cases h2 : packOne r t ctx with
    | error e => rfl
    | ok ctx' => exact ih ctx'

/-- A value-consuming codec invoked with an empty `vals` list fails
immediately with the not-enough-values error, leaving the buffer as it
was. -/
theorem consumesVals_empty_error (r : Nat) (t : Char) (ctx : PackCtx)
    (hv : ctx.vals = []) (hc : consumesVals (r, t)) :
    packOne r t ctx = .error (.notEnoughVals, ctx.buf) := by
  obtain ⟨buf, le, off, vals⟩ := ctx
  simp only at hv
  subst hv
  rcases hc with ⟨hmem, hr⟩ | hmem
  · obtain ⟨n, rfl⟩ : ∃ n, r = n + 1 := ⟨r - 1, by omega⟩
    simp only [List.mem_cons, List.not_mem_nil, or_false] at hmem
    rcases hmem with rfl | rfl | rfl | rfl | rfl | rfl | rfl | rfl | rfl | rfl | rfl |
      rfl | rfl | rfl | rfl <;> rfl
  · simp only [List.mem_cons, List.not_mem_nil, or_false] at hmem
    rcases hmem with rfl | rfl <;> rfl

/-- C9: if the `vals` list is exhausted while value-consuming fields
remain, packing fails with the not-enough-values error — and the check is
lazy, per consumption: every field already packed before the exhaustion
point keeps its bytes in the buffer carried by the error (packing the items
before the exhausted one succeeded and their writes are retained), as the
concrete scenarios show (`'5b'` with three values packs three bytes before
failing; `pack(new Buffer(1), '!c')` with no values fails). -/
theorem pack_not_enough_vals :
    (∀ (items1 : List (Nat × Char)) (item : Nat × Char) (rest : List (Nat × Char))
       (ctx ctx' : PackCtx), packItems items1 ctx = .ok ctx' → ctx'.vals = [] →
       consumesVals item →
       packItems (items1 ++ item :: rest) ctx = .error (.notEnoughVals, ctx'.buf)) ∧
    pack true (some [0]) "!c" [] = .error (.notEnoughVals, some [0]) ∧
    pack true (some [7, 7, 7, 7, 7]) "5b" [.int 1, .int 2, .int 3] =
      .error (.notEnoughVals, some [1, 2, 3, 7, 7]) := by
  refine ⟨?_, rfl, rfl⟩
  intro items1 item rest ctx ctx' h1 hv hc
  obtain ⟨r, t⟩ := item
  rw [packItems_append, h1]
  show packItems ((r, t) :: rest) ctx' = _
  rw [packItems, consumesVals_empty_error r t ctx' hv hc]

/-- Witness for C9 at concrete inputs. -/
theorem pack_not_enough_vals_witness :
    packItems [(1, 'b'), (1, 'c')]
        { buf := [9, 9], littleEndian := true, offset := 0, vals := [.int 5] } =
      .error (.notEnoughVals, [5, 9]) :=
  pack_not_enough_vals.1 [(1, 'b')] (1, 'c') []
    { buf := [9, 9], littleEndian := true, offset := 0, vals := [.int 5] }
    { buf := [5, 9], littleEndian := true, offset := 1, vals := [] }
    rfl rfl (by decide)

/-! ## Per-codec length and frame lemmas (for the size and frame claims) -/

theorem getByteD_dvSet_ge (w : Nat) (le : Bool) (buf : List Nat) (off : Nat) (v : Int)
    (j : Nat) (hj : off + w ≤ j) : getByteD (dvSet w le buf off v) j = getByteD buf j := by
  unfold dvSet
  apply getByteD_writeBytesAt_ge
  cases le <;> simp [natToBytesLE_length, natToBytesBE_length] <;> omega

theorem bufCopy_length (src dst : List Nat) (ds ss se : Nat) :
    (bufCopy src dst ds ss se).1.length = dst.length := by
  simp only [bufCopy]
  split <;> simp [writeBytesAt_length]

theorem subarrayList_length_le (buf : List Nat) (st en : Nat) :
    (subarrayList buf st en).length ≤ en - st := by
  unfold subarrayList
  simp only [List.length_drop, List.length_take]
  omega

theorem getByteD_bufCopy_ge (src dst : List Nat) (ds ss se j : Nat)
    (hj : ds + (se - ss) ≤ j) :
    getByteD (bufCopy src dst ds ss se).1 j = getByteD dst j := by
  simp only [bufCopy]
  have h0 := subarrayList_length_le src ss se
  split
  · apply getByteD_writeBytesAt_ge
    simp only [List.length_take]
    omega
  · apply getByteD_writeBytesAt_ge
    omega

/-- What a successful or failed scalar-loop run guarantees, given the
per-element write guarantees. -/
theorem packScalarLoop_spec (w : Nat)
    (write : List Nat → Nat → PackVal → Except JsError (List Nat))
    (hwrite : ∀ buf off v buf', write buf off v = .ok buf' →
      buf'.length = buf.length ∧ ∀ j, off + w ≤ j → getByteD buf' j = getByteD buf j) :
    ∀ (n : Nat) (ctx : PackCtx),
    (∀ ctx', packScalarLoop w write n ctx = .ok ctx' →
      ctx'.buf.length = ctx.buf.length ∧ ctx'.offset = ctx.offset + n * w ∧
      ctx'.littleEndian = ctx.littleEndian ∧
      (∀ j, ctx.offset + n * w ≤ j → getByteD ctx'.buf j = getByteD ctx.buf j)) ∧
    (∀ e b, packScalarLoop w write n ctx = .error (e, b) →
      b.length = ctx.buf.length ∧
      (∀ j, ctx.offset + n * w ≤ j → getByteD b j = getByteD ctx.buf j)) := by
  intro n
  induction n with
  | zero =>
    intro ctx
    constructor
    · intro ctx' h
      cases h
      simp
    · intro e b h
      cases h
  | succ n ih =>
    intro ctx
    constructor
    · intro ctx' h
      rw [packScalarLoop] at h
      cases hv : ctx.vals with
      | nil => rw [hv] at h; simp only [] at h; cases h
      | cons v rest =>
        rw [hv] at h
        simp only [] at h
        cases hw : write ctx.buf ctx.offset v with
        | error e => rw [hw] at h; simp only [] at h; cases h
        | ok buf1 =>
          rw [hw] at h
          simp only [] at h
          obtain ⟨hlen1, hfr1⟩ := hwrite _ _ _ _ hw
          obtain ⟨hlen2, hoff2, hle2, hfr2⟩ := (ih _).1 ctx' h
          simp only [] at hlen2 hoff2 hle2 hfr2
          have hmul : (n + 1) * w = n * w + w := Nat.succ_mul n w
          refine ⟨hlen2.trans hlen1, by omega, hle2, ?_⟩
          intro j hj
          rw [hfr2 j (by omega), hfr1 j (by omega)]
    · intro e b h
      rw [packScalarLoop] at h
      cases hv : ctx.vals with
      | nil =>
        rw [hv] at h
        simp only [] at h
        cases h
        exact ⟨rfl, fun j _ => rfl⟩
      | cons v rest =>
        rw [hv] at h
        simp only [] at h
        cases hw : write ctx.buf ctx.offset v with
        | error e1 =>
          rw [hw] at h
          simp only [] at h
          cases h
          exact ⟨rfl, fun j _ => rfl⟩
        | ok buf1 =>
          rw [hw] at h
          simp only [] at h
          obtain ⟨hlen1, hfr1⟩ := hwrite _ _ _ _ hw
          obtain ⟨hlen2, hfr2⟩ := (ih _).2 e b h
          simp only [] at hlen2 hfr2
          have hmul : (n + 1) * w = n * w + w := Nat.succ_mul n w
          refine ⟨hlen2.trans hlen1, ?_⟩
          intro j hj
          rw [hfr2 j (by omega), hfr1 j (by omega)]

/-- Per-element guarantee of the `DataView`-writing scalar codecs. -/
theorem write_dvSet_spec (w : Nat) (le : Bool) {A : Type}
    (conv : PackVal → Except JsError A) (enc : A → Int) :
    ∀ (buf : List Nat) (off : Nat) (v : PackVal) (buf' : List Nat),
      (do let a ← conv v; pure (dvSet w le buf off (enc a)) :
        Except JsError (List Nat)) = .ok buf' →
      buf'.length = buf.length ∧
      ∀ j, off + w ≤ j → getByteD buf' j = getByteD buf j := by
  intro buf off v buf' h
  cases hc : conv v with
  | error e =>
    rw [show (do let a ← conv v; pure (dvSet w le buf off (enc a)) :
        Except JsError (List Nat)) = Except.bind (conv v)
        (fun a => pure (dvSet w le buf off (enc a))) from rfl, hc] at h
    simp [Except.bind] at h
  | ok a =>
    rw [show (do let a ← conv v; pure (dvSet w le buf off (enc a)) :
        Except JsError (List Nat)) = Except.bind (conv v)
        (fun a => pure (dvSet w le buf off (enc a))) from rfl, hc] at h
    simp only [Except.bind, pure, Except.pure, Except.ok.injEq] at h
    subst h
    exact ⟨dvSet_length w le buf off (enc a),
      fun j hj => getByteD_dvSet_ge w le buf off (enc a) j hj⟩

/-- Per-element guarantee of the index-assignment codec (`c`). -/
theorem write_set_spec {A : Type} (conv : PackVal → Except JsError A) (enc : A → Nat) :
    ∀ (buf : List Nat) (off : Nat) (v : PackVal) (buf' : List Nat),
      (do let a ← conv v; pure (buf.set off (enc a)) :
        Except JsError (List Nat)) = .ok buf' →
      buf'.length = buf.length ∧
      ∀ j, off + 1 ≤ j → getByteD buf' j = getByteD buf j := by
  intro buf off v buf' h
  cases hc : conv v with
  | error e =>
    rw [show (do let a ← conv v; pure (buf.set off (enc a)) :
        Except JsError (List Nat)) = Except.bind (conv v)
        (fun a => pure (buf.set off (enc a))) from rfl, hc] at h
    simp [Except.bind] at h
  | ok a =>
    rw [show (do let a ← conv v; pure (buf.set off (enc a)) :
        Except JsError (List Nat)) = Except.bind (conv v)
        (fun a => pure (buf.set off (enc a))) from rfl, hc] at h
    simp only [Except.bind, pure, Except.pure, Except.ok.injEq] at h
    subst h
    exact ⟨List.length_set buf off (enc a),
      fun j hj => getByteD_set_ne buf off j (enc a) (by omega)⟩

/-- The length/offset/frame contract of a codec run whose field occupies
`wtotal` bytes: on success the offset advances by exactly `wtotal`, the
buffer keeps its length and the byte order is unchanged, and every byte at
or beyond `offset + wtotal` is untouched; on failure the buffer carried by
the error satisfies the same length/frame conditions. -/
def CodecSpec (wtotal : Nat) (ctx : PackCtx) (res : PackM) : Prop :=
  (∀ ctx', res = .ok ctx' →
    ctx'.buf.length = ctx.buf.length ∧ ctx'.offset = ctx.offset + wtotal ∧
    ctx'.littleEndian = ctx.littleEndian ∧
    (∀ j, ctx.offset + wtotal ≤ j → getByteD ctx'.buf j = getByteD ctx.buf j)) ∧
  (∀ e b, res = .error (e, b) →
    b.length = ctx.buf.length ∧
    (∀ j, ctx.offset + wtotal ≤ j → getByteD b j = getByteD ctx.buf j))

theorem packFromPad_spec (r : Nat) (ctx : PackCtx) :
    CodecSpec r ctx (packFromPad r ctx) := by
  constructor
  · intro ctx' h
    unfold packFromPad at h
    cases h
    refine ⟨?_, rfl, rfl, ?_⟩
    · split <;> simp [List.length_set]
    · intro j hj
      split
      · rfl
      · exact getByteD_set_ne _ _ _ _ (by omega)
  · intro e b h
    unfold packFromPad at h
    cases h

theorem packFromChar_spec (r : Nat) (ctx : PackCtx) :
    CodecSpec r ctx (packFromChar r ctx) := by
  have := packScalarLoop_spec 1
    (fun buf off v => do
      let bs ← bufferFromVal v
      pure (buf.set off (bs.headD 0 % 256)))
    (write_set_spec bufferFromVal (fun bs => bs.headD 0 % 256)) r ctx
  simpa [packFromChar, CodecSpec, Nat.mul_one] using this

theorem packFromInt8_spec (r : Nat) (ctx : PackCtx) :
    CodecSpec r ctx (packFromInt8 r ctx) := by
  have := packScalarLoop_spec 1
    (fun buf off v => do
      let i ← toSafeIntegerVal v
      pure (dvSet 1 ctx.littleEndian buf off i))
    (write_dvSet_spec 1 ctx.littleEndian toSafeIntegerVal id) r ctx
  simpa [packFromInt8, CodecSpec, Nat.mul_one] using this

theorem packFromBool_spec (r : Nat) (ctx : PackCtx) :
    CodecSpec r ctx (packFromBool r ctx) := by
  have := packScalarLoop_spec 1
    (fun buf off v => pure (dvSet 1 ctx.littleEndian buf off (if truthy v then 1 else 0)))
    (write_dvSet_spec 1 ctx.littleEndian
      (fun v => pure (if truthy v then (1 : Int) else 0)) id) r ctx
  simpa [packFromBool, CodecSpec, Nat.mul_one] using this

theorem packFromInt16_spec (r : Nat) (ctx : PackCtx) :
    CodecSpec (r * 2) ctx (packFromInt16 r ctx) := by
  have := packScalarLoop_spec 2
    (fun buf off v => do
      let i ← toSafeIntegerVal v
      pure (dvSet 2 ctx.littleEndian buf off i))
    (write_dvSet_spec 2 ctx.littleEndian toSafeIntegerVal id) r ctx
  simpa [packFromInt16, CodecSpec] using this

theorem packFromInt32_spec (r : Nat) (ctx : PackCtx) :
    CodecSpec (r * 4) ctx (packFromInt32 r ctx) := by
  have := packScalarLoop_spec 4
    (fun buf off v => do
      let i ← toSafeIntegerVal v
      pure (dvSet 4 ctx.littleEndian buf off i))
    (write_dvSet_spec 4 ctx.littleEndian toSafeIntegerVal id) r ctx
  simpa [packFromInt32, CodecSpec] using this

theorem packFromBigInt64_spec (r : Nat) (ctx : PackCtx) :
    CodecSpec (r * 8) ctx (packFromBigInt64 r ctx) := by
  have := packScalarLoop_spec 8
    (fun buf off v => do
      let i ← bigIntFromVal v
      pure (dvSet 8 ctx.littleEndian buf off i))
    (write_dvSet_spec 8 ctx.littleEndian bigIntFromVal id) r ctx
  simpa [packFromBigInt64, CodecSpec] using this

theorem packFromFloat16_spec (r : Nat) (ctx : PackCtx) :
    CodecSpec (r * 2) ctx (packFromFloat16 r ctx) := by
  have := packScalarLoop_spec 2
    (fun buf off v => do
      let x ← numberFromVal v
      pure (dvSet 2 ctx.littleEndian buf off (floatU32ToU16 (f64ToF32 x))))
    (write_dvSet_spec 2 ctx.littleEndian numberFromVal
      (fun x => (floatU32ToU16 (f64ToF32 x) : Int))) r ctx
  simpa [packFromFloat16, CodecSpec] using this

theorem packFromFloat_spec (r : Nat) (ctx : PackCtx) :
    CodecSpec (r * 4) ctx (packFromFloat r ctx) := by
  have := packScalarLoop_spec 4
    (fun buf off v => do
      let x ← numberFromVal v
      pure (dvSet 4 ctx.littleEndian buf off (f64ToF32 x)))
    (write_dvSet_spec 4 ctx.littleEndian numberFromVal
      (fun x => (f64ToF32 x : Int))) r ctx
  simpa [packFromFloat, CodecSpec] using this

theorem packFromDouble_spec (r : Nat) (ctx : PackCtx) :
    CodecSpec (r * 8) ctx (packFromDouble r ctx) := by
  have := packScalarLoop_spec 8
    (fun buf off v => do
      let x ← numberFromVal v
      pure (dvSet 8 ctx.littleEndian buf off x))
    (write_dvSet_spec 8 ctx.littleEndian numberFromVal
      (fun x => (x : Int))) r ctx
  simpa [packFromDouble, CodecSpec] using this

theorem packFromString_spec (r : Nat) (ctx : PackCtx) :
    CodecSpec r ctx (packFromString r ctx) := by
  obtain ⟨cbuf, cle, coff, cvals⟩ := ctx
  constructor
  · intro ctx' h
    unfold packFromString at h
    simp only [] at h
    cases cvals with
    | nil => cases h
    | cons v rest =>
      simp only [] at h
      cases hb : bufferFromVal v with
      | error e => rw [hb] at h; simp only [] at h; cases h
      | ok bs =>
        rw [hb] at h
        simp only [] at h
        cases h
        have hlen1 : ((bufCopy bs (List.replicate r 0) 0 0 r).1).length = r := by
          rw [bufCopy_length]; simp
        refine ⟨by simp [bufCopy_length], by simp [hlen1], rfl, ?_⟩
        intro j hj
        simp only [] at hj
        simp only []
        rw [hlen1]
        exact getByteD_bufCopy_ge _ _ _ _ _ _ (by omega)
  · intro e b h
    unfold packFromString at h
    simp only [] at h
    cases cvals with
    | nil =>
      simp only [] at h
      cases h
      exact ⟨rfl, fun j _ => rfl⟩
    | cons v rest =>
      simp only [] at h
      cases hb : bufferFromVal v with
      | error e1 =>
        rw [hb] at h
        simp only [] at h
        cases h
        exact ⟨rfl, fun j _ => rfl⟩
      | ok bs =>
        rw [hb] at h
        simp only [] at h
        cases h

theorem packFromPascal_spec (r : Nat) (ctx : PackCtx) :
    CodecSpec r ctx (packFromPascal r ctx) := by
  obtain ⟨cbuf, cle, coff, cvals⟩ := ctx
  constructor
  · intro ctx' h
    unfold packFromPascal at h
    simp only [] at h
    cases cvals with
    | nil => cases h
    | cons v rest =>
      simp only [] at h
      cases hb : bufferFromVal v with
      | error e => rw [hb] at h; simp only [] at h; cases h
      | ok bs =>
        rw [hb] at h
        simp only [] at h
        cases h
        have hlen1 :
            ((bufCopy bs (List.replicate r 0) 1 0 (r - 1)).1.set 0
              ((bufCopy bs (List.replicate r 0) 1 0 (r - 1)).2 % 256)).length = r := by
          rw [List.length_set, bufCopy_length]; simp
        refine ⟨by simp [List.length_set, bufCopy_length], by simp [hlen1], rfl, ?_⟩
        intro j hj
        simp only [] at hj
        simp only []
        rw [hlen1]
        exact getByteD_bufCopy_ge _ _ _ _ _ _ (by omega)
  · intro e b h
    unfold packFromPascal at h
    simp only [] at h
    cases cvals with
    | nil =>
      simp only [] at h
      cases h
      exact ⟨rfl, fun j _ => rfl⟩
    | cons v rest =>
      simp only [] at h
      cases hb : bufferFromVal v with
      | error e1 =>
        rw [hb] at h
        simp only [] at h
        cases h
        exact ⟨rfl, fun j _ => rfl⟩
      | ok bs =>
        rw [hb] at h
        simp only [] at h
        cases h

/-- The length/offset/frame guarantees of one codec dispatch, for every
type code (unknown codes fail without touching the buffer). -/
theorem packOne_spec (r : Nat) (t : Char) (ctx : PackCtx) :
    CodecSpec (itemSize (r, t)) ctx (packOne r t ctx) := by
  by_cases ht : isPackTypeCode t
  · simp only [isPackTypeCode, List.mem_cons, List.not_mem_nil, or_false,
      decide_eq_true_eq] at ht
    rcases ht with rfl | rfl | rfl | rfl | rfl | rfl | rfl | rfl | rfl | rfl | rfl |
      rfl | rfl | rfl | rfl | rfl | rfl | rfl
    · exact packFromPad_spec r ctx
    · exact packFromChar_spec r ctx
    · exact packFromInt8_spec r ctx
    · exact packFromInt8_spec r ctx
    · exact packFromBool_spec r ctx
    · exact packFromInt16_spec r ctx
    · exact packFromInt16_spec r ctx
    · exact packFromInt32_spec r ctx
    · exact packFromInt32_spec r ctx
    · exact packFromInt32_spec r ctx
    · exact packFromInt32_spec r ctx
    · exact packFromBigInt64_spec r ctx
    · exact packFromBigInt64_spec r ctx
    · exact packFromFloat16_spec r ctx
    · exact packFromFloat_spec r ctx
    · exact packFromDouble_spec r ctx
    · exact packFromString_spec r ctx
    · exact packFromPascal_spec r ctx
  · have hnone : packFromFn t = none := by
      simp only [isPackTypeCode, List.mem_cons, List.not_mem_nil, or_false,
        decide_eq_true_eq] at ht
      push_neg at ht
      obtain ⟨n1, n2, n3, n4, n5, n6, n7, n8, n9, n10, n11, n12, n13, n14, n15,
        n16, n17, n18⟩ := ht
      simp [packFromFn, n1, n2, n3, n4, n5, n6, n7, n8, n9, n10, n11, n12, n13,
        n14, n15, n16, n17, n18]
    constructor
    · intro ctx' h
      unfold packOne at h
      rw [hnone] at h
      simp only [] at h
      cases h
    · intro e b h
      unfold packOne at h
      rw [hnone] at h
      simp only [] at h
      cases h
      exact ⟨rfl, fun j _ => rfl⟩

theorem packCalcSize_cons (r : Nat) (t : Char) (rest : List (Nat × Char)) :
    packCalcSize ((r, t) :: rest) = itemSize (r, t) + packCalcSize rest := by
  simp [packCalcSize]

/-- The length/offset/frame guarantees of the whole item loop. -/
theorem packItems_spec : ∀ (items : List (Nat × Char)) (ctx : PackCtx),
    CodecSpec (packCalcSize items) ctx (packItems items ctx) := by
  intro items
  induction items with
  | nil =>
    intro ctx
    constructor
    · intro ctx' h
      cases h
      exact ⟨rfl, by simp [packCalcSize], rfl, fun j _ => rfl⟩
    · intro e b h
      cases h
  | cons it rest ih =>
    intro ctx
    obtain ⟨r, t⟩ := it
    have hone := packOne_spec r t ctx
    constructor
    · intro ctx' h
      rw [packItems] at h
      cases h1 : packOne r t ctx with
      | error e => rw [h1] at h; simp only [] at h; cases h
      | ok ctx1 =>
        rw [h1] at h
        simp only [] at h
        obtain ⟨hl1, ho1, he1, hf1⟩ := hone.1 ctx1 h1
        obtain ⟨hl2, ho2, he2, hf2⟩ := (ih ctx1).1 ctx' h
        rw [packCalcSize_cons]
        refine ⟨hl2.trans hl1, by omega, he2.trans he1, ?_⟩
        intro j hj
        rw [hf2 j (by omega), hf1 j (by omega)]
    · intro e b h
      rw [packItems] at h
      cases h1 : packOne r t ctx with
      | error e1 =>
        rw [h1] at h
        simp only [] at h
        cases h
        obtain ⟨hl1, hf1⟩ := hone.2 _ _ h1
        rw [packCalcSize_cons]
        exact ⟨hl1, fun j hj => hf1 j (by omega)⟩
      | ok ctx1 =>
        rw [h1] at h
        simp only [] at h
        obtain ⟨hl1, ho1, he1, hf1⟩ := hone.1 ctx1 h1
        obtain ⟨hl2, hf2⟩ := (ih ctx1).2 e b h
        rw [packCalcSize_cons]
        refine ⟨hl2.trans hl1, ?_⟩
        intro j hj
        rw [hf2 j (by omega), hf1 j (by omega)]

/-! ## Claim C4 — size agreement -/

/-- Each parsed item's width equals the per-code width table the claim
states: `x,c,b,B,?` → 1 byte per repeat; `h,H,e` → 2; `i,I,l,L,f` → 4;
`q,Q,d` → 8; `s,p` → `repeat` bytes total. -/
theorem itemSize_claim_formula (it : Nat × Char) :
    itemSize it =
      (if it.2 ∈ ['x', 'c', 'b', 'B', '?'] then it.1 * 1
       else if it.2 ∈ ['h', 'H', 'e'] then it.1 * 2
       else if it.2 ∈ ['i', 'I', 'l', 'L', 'f'] then it.1 * 4
       else if it.2 ∈ ['q', 'Q', 'd'] then it.1 * 8
       else it.1) := by
  obtain ⟨r, t⟩ := it
  unfold itemSize
  by_cases h1 : t ∈ ['x', 'c', 'b', 'B', '?']
  · have h2 : t ∉ ['h', 'H', 'e'] := by
      intro hc; fin_cases h1 <;> simp_all
    have h3 : t ∉ ['i', 'I', 'l', 'L', 'f'] := by
      intro hc; fin_cases h1 <;> simp_all
    have h4 : t ∉ ['q', 'Q', 'd'] := by
      intro hc; fin_cases h1 <;> simp_all
    simp [h1, h2, h3, h4]
  · simp only [h1, if_false]

/-- C4: a `pack` call with no explicit buffer returns a buffer of length
exactly `packCalcSize`, and `packCalcSize` is the sum over parsed items of
the per-code widths the claim lists. -/
theorem pack_length_calcSize :
    ∀ (nle : Bool) (fmt : String) (vals : List PackVal) (f : PackFormat)
      (buf : List Nat), packParseFormat nle fmt = .ok f →
      pack nle none fmt vals = .ok buf →
      buf.length = packCalcSize f.items ∧
      packCalcSize f.items = (f.items.map (fun it =>
        if it.2 ∈ ['x', 'c', 'b', 'B', '?'] then it.1 * 1
        else if it.2 ∈ ['h', 'H', 'e'] then it.1 * 2
        else if it.2 ∈ ['i', 'I', 'l', 'L', 'f'] then it.1 * 4
        else if it.2 ∈ ['q', 'Q', 'd'] then it.1 * 8
        else it.1)).sum := by
  intro nle fmt vals f buf h hpack
  constructor
  · unfold pack at hpack
    rw [h] at hpack
    simp only [Option.getD_none, Option.isSome_none] at hpack
    rw [if_neg (by simp [List.length_replicate])] at hpack
    cases hp : packItems f.items
        { buf := List.replicate (packCalcSize f.items) 0,
          littleEndian := f.littleEndian, offset := 0, vals := vals } with
    | error e =>
      rw [hp] at hpack
      obtain ⟨e1, e2⟩ := e
      simp at hpack
    | ok ctx' =>
      rw [hp] at hpack
      simp only [Except.ok.injEq] at hpack
      obtain ⟨hl, _, _, _⟩ := (packItems_spec f.items _).1 ctx' hp
      rw [← hpack]
      simpa using hl
  · unfold packCalcSize
    congr 1
    exact List.map_congr_left (fun it _ => itemSize_claim_formula it)

/-- Witness for C4 at concrete inputs. -/
theorem pack_length_calcSize_witness :
    [0x01, 0x00, 0x02, 0x00, 0x00, 0x00, 0x03].length =
        packCalcSize [(1, 'b'), (1, 'h'), (1, 'l')] ∧
    packCalcSize [(1, 'b'), (1, 'h'), (1, 'l')] =
      ([(1, 'b'), (1, 'h'), (1, 'l')].map (fun it =>
        if it.2 ∈ ['x', 'c', 'b', 'B', '?'] then it.1 * 1
        else if it.2 ∈ ['h', 'H', 'e'] then it.1 * 2
        else if it.2 ∈ ['i', 'I', 'l', 'L', 'f'] then it.1 * 4
        else if it.2 ∈ ['q', 'Q', 'd'] then it.1 * 8
        else it.1)).sum :=
  pack_length_calcSize true ">bhl" [.int 1, .int 2, .int 3]
    ⟨false, [(1, 'b'), (1, 'h'), (1, 'l')]⟩
    [0x01, 0x00, 0x02, 0x00, 0x00, 0x00, 0x03] rfl rfl

/-! ## Claim C10 — frame condition on caller-supplied buffers -/

/-- C10: packing into a caller-supplied buffer can modify only offsets
strictly below `packCalcSize(format)`; every byte at or beyond that offset
keeps its prior value — both when `pack` succeeds and when it fails partway
(e.g. with the not-enough-values error), in which case the buffer carried
by the error satisfies the same frame. -/
theorem pack_frame :
    ∀ (nle : Bool) (buf : List Nat) (fmt : String) (vals : List PackVal)
      (f : PackFormat), packParseFormat nle fmt = .ok f →
      (∀ buf', pack nle (some buf) fmt vals = .ok buf' →
        buf'.length = buf.length ∧
        (∀ j, packCalcSize f.items ≤ j → getByteD buf' j = getByteD buf j)) ∧
      (∀ e buf', pack nle (some buf) fmt vals = .error (e, some buf') →
        buf'.length = buf.length ∧
        (∀ j, packCalcSize f.items ≤ j → getByteD buf' j = getByteD buf j)) := by
  intro nle buf fmt vals f h
  constructor
  · intro buf' hpack
    unfold pack at hpack
    rw [h] at hpack
    simp only [Option.getD_some] at hpack
    by_cases hcap : buf.length < packCalcSize f.items
    · rw [if_pos hcap] at hpack
      cases hpack
    · rw [if_neg hcap] at hpack
      cases hp : packItems f.items
          { buf := buf, littleEndian := f.littleEndian, offset := 0, vals := vals } with
      | error e =>
        rw [hp] at hpack
        obtain ⟨e1, e2⟩ := e
        simp at hpack
      | ok ctx' =>
        rw [hp] at hpack
        simp only [Except.ok.injEq] at hpack
        obtain ⟨hl, _, _, hf⟩ := (packItems_spec f.items _).1 ctx' hp
        simp only [] at hl hf
        subst hpack
        exact ⟨hl, fun j hj => hf j (by omega)⟩
  · intro e buf' hpack
    unfold pack at hpack
    rw [h] at hpack
    simp only [Option.getD_some] at hpack
    by_cases hcap : buf.length < packCalcSize f.items
    · rw [if_pos hcap] at hpack
      simp only [Except.error.injEq, Prod.mk.injEq, Option.some.injEq] at hpack
      obtain ⟨-, rfl⟩ := hpack
      exact ⟨rfl, fun j _ => rfl⟩
    · rw [if_neg hcap] at hpack
      cases hp : packItems f.items
          { buf := buf, littleEndian := f.littleEndian, offset := 0, vals := vals } with
      | error e1 =>
        rw [hp] at hpack
        obtain ⟨e2, b2⟩ := e1
        simp only [Option.isSome_some, if_true, Except.error.injEq, Prod.mk.injEq,
          Option.some.injEq] at hpack
        obtain ⟨he, hb⟩ := hpack
        subst he
        subst hb
        obtain ⟨hl, hf⟩ := (packItems_spec f.items _).2 _ _ hp
        simp only [] at hl hf
        exact ⟨hl, fun j hj => hf j (by omega)⟩
      | ok ctx' =>
        rw [hp] at hpack
        simp at hpack

/-- Witness for C10 at concrete inputs. -/
theorem pack_frame_witness :
    (∀ buf', pack true (some [9, 9, 9]) "!b" [.int 1] = .ok buf' →
      buf'.length = [9, 9, 9].length ∧
      (∀ j, packCalcSize [(1, 'b')] ≤ j →
        getByteD buf' j = getByteD [9, 9, 9] j)) ∧
    (∀ e buf', pack true (some [9, 9, 9]) "!b" [.int 1] = .error (e, some buf') →
      buf'.length = [9, 9, 9].length ∧
      (∀ j, packCalcSize [(1, 'b')] ≤ j →
        getByteD buf' j = getByteD [9, 9, 9] j)) :=
  pack_frame true [9, 9, 9] "!b" [.int 1] ⟨false, [(1, 'b')]⟩ rfl

/-! ## Claim C3 — iterUnpack yield count -/

/-- Every item the parser produces carries a type code from the grammar's
alphabet. -/
theorem parseItemsAux_codes : ∀ (cs : List Char) (acc : Option Nat)
    (items : List (Nat × Char)), parseItemsAux cs acc = some items →
    ∀ it, it ∈ items → isPackTypeCode it.2 = true := by
  intro cs
  induction cs with
  | nil =>
    intro acc items h it hmem
    cases acc <;> simp [parseItemsAux] at h
    subst h; simp at hmem
  | cons c cs ih =>
    intro acc items h it hmem
    by_cases hd : c.isDigit
    · rw [parseItemsAux, if_pos hd] at h
      exact ih _ _ h it hmem
    · by_cases ht : isPackTypeCode c
      · rw [parseItemsAux, if_neg hd, if_pos ht] at h
        cases hrest : parseItemsAux cs none with
        | none => rw [hrest] at h; simp at h
        | some rest =>
          rw [hrest] at h
          simp only [Option.map_some'] at h
          cases h
          rcases List.mem_cons.mp hmem with hhd | htl
          · subst hhd; exact ht
          · exact ih _ _ hrest it htl
      · rw [parseItemsAux, if_neg hd, if_neg ht] at h
        simp at h

/-- Items from a successful parse carry grammar type codes. -/
theorem packParseFormat_codes (nle : Bool) (s : String) (f : PackFormat)
    (h : packParseFormat nle s = .ok f) :
    ∀ it, it ∈ f.items → isPackTypeCode it.2 = true := by
  intro it hmem
  cases s with
  | mk cs =>
    cases cs with
    | nil => simp [packParseFormat, parseItemsAux] at h
    | cons c rest =>
      unfold packParseFormat at h
      by_cases hpre : isByteOrderPrefix c
      · simp only [hpre, if_true] at h
        cases hp : parseItemsAux rest none with
        | none => rw [hp] at h; exact absurd h (by simp)
        | some items =>
          rw [hp] at h
          by_cases hemp : rest.isEmpty
          · simp only [hemp, if_true] at h
            exact absurd h (by simp)
          · simp only [hemp, Bool.false_eq_true, if_false, Except.ok.injEq] at h
            have hitems : f.items = items := by rw [← h]
            rw [hitems] at hmem
            exact parseItemsAux_codes rest none items hp it hmem
      · have hpre' : isByteOrderPrefix c = false := by simpa using hpre
        simp only [hpre', Bool.false_eq_true, if_false] at h
        cases hp : parseItemsAux (c :: rest) none with
        | none => rw [hp] at h; exact absurd h (by simp)
        | some items =>
          rw [hp] at h
          simp only [List.isEmpty_cons, if_false, Bool.false_eq_true,
            Except.ok.injEq] at h
          have hitems : f.items = items := by rw [← h]
          rw [hitems] at hmem
          exact parseItemsAux_codes (c :: rest) none items hp it hmem

/-- Every grammar type code has an unpack codec in the dispatch map. -/
theorem unpackToFn_isSome (t : Char) (h : isPackTypeCode t = true) :
    (unpackToFn t).isSome = true := by
  simp only [isPackTypeCode, List.mem_cons, List.not_mem_nil, or_false,
    decide_eq_true_eq] at h
  rcases h with rfl | rfl | rfl | rfl | rfl | rfl | rfl | rfl | rfl | rfl | rfl |
    rfl | rfl | rfl | rfl | rfl | rfl | rfl <;> rfl

/-- The unpack item loop is total on items with grammar type codes (the
unpack codecs consume no values and cannot fail). -/
theorem unpackItems_ok : ∀ (items : List (Nat × Char)) (ctx : PackCtx),
    (∀ it, it ∈ items → isPackTypeCode it.2 = true) →
    ∃ ctx', unpackItems items ctx = .ok ctx' := by
  intro items
  induction items with
  | nil => intro ctx _; exact ⟨ctx, rfl⟩
  | cons it rest ih =>
    intro ctx hcodes
    obtain ⟨r, t⟩ := it
    have hsome := unpackToFn_isSome t (hcodes (r, t) (List.mem_cons_self _ _))
    cases hfn : unpackToFn t with
    | none => rw [hfn] at hsome; simp at hsome
    | some fn =>
      obtain ⟨ctx', hctx'⟩ := ih (fn r ctx) (fun it hmem => hcodes it (List.mem_cons_of_mem _ hmem))
      refine ⟨ctx', ?_⟩
      rw [unpackItems]
      have hone : unpackOne r t ctx = .ok (fn r ctx) := by
        unfold unpackOne
        rw [hfn]
      rw [hone]
      exact hctx'

/-- C3 (counterexample): the claim says `iterUnpack` yields exactly
`floor(buf.length / calcSize(fmt))` tuples and silently drops the
remainder, for every buffer and valid format.  For `buf = [0]` and
`fmt = "!h"` the floor is 0, but the generator throws the buffer-too-small
error instead of stopping silently; for `fmt = "0h"` (`calcSize = 0`) the
floor is 0 in the ℕ-division reading, but the generator yields at index 0
(and at every index) instead of terminating. -/
theorem iterUnpack_count_counterexample :
    iterUnpackNth true [0] "!h" 0 = .error (.bufTooSmall 1 2) ∧
    [(0 : Nat)].length / packCalcSize [(1, 'h')] = 0 ∧
    iterUnpackNth true [] "0h" 0 = .ok (some []) ∧
    ([] : List Nat).length / packCalcSize [(0, 'h')] = 0 :=
  ⟨rfl, rfl, rfl, rfl⟩

/-- C3 (amended): provided the buffer passes the eager capacity check
(`calcSize ≤ buf.length`) and the format has positive size, `iterUnpack`
yields exactly `floor(buf.length / calcSize)` tuples: every index below the
floor produces a tuple and every index at or beyond it finds the generator
finished, the remainder silently dropped.  (When `buf.length < calcSize`
the generator fails with the buffer-too-small error instead — claim C8 —
and when `calcSize = 0` it never stops yielding.) -/
theorem iterUnpack_yield_count :
    ∀ (nle : Bool) (buf : List Nat) (fmt : String) (f : PackFormat),
      packParseFormat nle fmt = .ok f →
      1 ≤ packCalcSize f.items → packCalcSize f.items ≤ buf.length →
      (∀ n, n < buf.length / packCalcSize f.items →
        ∃ tup, iterUnpackNth nle buf fmt n = .ok (some tup)) ∧
      (∀ n, buf.length / packCalcSize f.items ≤ n →
        iterUnpackNth nle buf fmt n = .ok none) := by
  intro nle buf fmt f h hpos hcap
  have hL : 0 < packCalcSize f.items := hpos
  constructor
  · intro n hn
    unfold iterUnpackNth
    rw [h]
    simp only []
    rw [if_neg (by omega)]
    have hmul : (n + 1) * packCalcSize f.items ≤ buf.length := by
      rw [← Nat.le_div_iff_mul_le hL] at *
      omega
    have hwin : packCalcSize f.items ≤ (buf.drop (n * packCalcSize f.items)).length := by
      rw [List.length_drop]
      have hs : (n + 1) * packCalcSize f.items =
          n * packCalcSize f.items + packCalcSize f.items := Nat.succ_mul _ _
      omega
    rw [if_pos hwin]
    obtain ⟨ctx', hctx'⟩ := unpackItems_ok f.items
      { buf := buf.drop (n * packCalcSize f.items), littleEndian := f.littleEndian,
        offset := 0, vals := [] }
      (packParseFormat_codes nle fmt f h)
    rw [hctx']
    exact ⟨ctx'.vals, rfl⟩
  · intro n hn
    unfold iterUnpackNth
    rw [h]
    simp only []
    rw [if_neg (by omega)]
    have hmul : buf.length < (n + 1) * packCalcSize f.items := by
      rw [← Nat.div_lt_iff_lt_mul hL]
      omega
    have hwin : ¬ (packCalcSize f.items ≤ (buf.drop (n * packCalcSize f.items)).length) := by
      rw [List.length_drop]
      have hs : (n + 1) * packCalcSize f.items =
          n * packCalcSize f.items + packCalcSize f.items := Nat.succ_mul _ _
      omega
    rw [if_neg hwin]

/-- Witness for the amended C3 at concrete inputs. -/
theorem iterUnpack_yield_count_witness :
    (∃ tup, iterUnpackNth true [1, 254, 1, 254] "!BB" 0 = .ok (some tup)) ∧
    iterUnpackNth true [1, 254, 1, 254] "!BB" 2 = .ok none :=
  ⟨(iterUnpack_yield_count true [1, 254, 1, 254] "!BB"
      ⟨false, [(1, 'B'), (1, 'B')]⟩ rfl (by decide) (by decide)).1 0 (by decide),
   (iterUnpack_yield_count true [1, 254, 1, 254] "!BB"
      ⟨false, [(1, 'B'), (1, 'B')]⟩ rfl (by decide) (by decide)).2 2 (by decide)⟩

/-! ## IEEE-754 widening/narrowing lemmas (for the round-trip claim) -/

theorem rshiftRNE_mul_pow (a j : Nat) : rshiftRNE (a * 2 ^ j) j = a := by
  unfold rshiftRNE
  have hd : 0 < 2 ^ j := by positivity
  have hr : a * 2 ^ j % 2 ^ j = 0 := by simp [Nat.mul_mod_left]
  have hq : a * 2 ^ j / 2 ^ j = a := Nat.mul_div_cancel a hd
  simp only [hr, hq]
  rw [if_pos (by omega)]

theorem log2fuel_eq (fuel : Nat) : ∀ n : Nat, n ≤ fuel →
    log2fuel fuel n = Nat.log2 n := by
  induction fuel with
  | zero =>
    intro n hn
    have hn0 : n = 0 := by omega
    subst hn0
    rw [log2fuel, Nat.log2]
    norm_num
  | succ fuel ih =>
    intro n hn
    rw [log2fuel]
    by_cases h2 : n < 2
    · rw [if_pos h2, Nat.log2, if_neg (by omega)]
    · rw [if_neg h2, ih (n / 2) (by omega)]
      conv_rhs => rw [Nat.log2]
      rw [if_pos (by omega)]

theorem natLog2_eq (n : Nat) : natLog2 n = Nat.log2 n :=
  log2fuel_eq n n (le_refl n)

theorem log2_eq_of_bounds (a n : Nat) (h1 : 2 ^ n ≤ a) (h2 : a < 2 ^ (n + 1)) :
    natLog2 a = n := by
  rw [natLog2_eq, Nat.log2_eq_log_two]
  exact Nat.log_eq_of_pow_le_of_lt_pow h1 h2

/-- Field extraction from a packed binary64 pattern. -/
theorem f64_fields (s E M : Nat) (hs : s < 2) (hE : E < 2048) (hM : M < 2 ^ 52) :
    f64Sign (s * 2 ^ 63 + E * 2 ^ 52 + M) = s ∧
    f64Exp (s * 2 ^ 63 + E * 2 ^ 52 + M) = E ∧
    f64Frac (s * 2 ^ 63 + E * 2 ^ 52 + M) = M := by
  unfold f64Sign f64Exp f64Frac
  refine ⟨?_, ?_, ?_⟩ <;> omega

/-- Field extraction from a packed binary32 pattern. -/
theorem f32_fields (s E M : Nat) (hs : s < 2) (hE : E < 256) (hM : M < 2 ^ 23) :
    f32Sign (s * 2 ^ 31 + E * 2 ^ 23 + M) = s ∧
    f32Exp (s * 2 ^ 31 + E * 2 ^ 23 + M) = E ∧
    f32Frac (s * 2 ^ 31 + E * 2 ^ 23 + M) = M := by
  unfold f32Sign f32Exp f32Frac
  refine ⟨?_, ?_, ?_⟩ <;> omega

/-- A binary32 pattern decomposes into its fields. -/
theorem f32_decompose (w : Nat) (hw : w < 2 ^ 32) :
    w = f32Sign w * 2 ^ 31 + f32Exp w * 2 ^ 23 + f32Frac w ∧
    f32Sign w < 2 ∧ f32Exp w < 256 ∧ f32Frac w < 2 ^ 23 := by
  unfold f32Sign f32Exp f32Frac
  refine ⟨?_, ?_, ?_, ?_⟩ <;> omega

/-- The generic rounder on the exact subnormal shapes produced by widening
a binary32 subnormal. -/
theorem roundFloatMag_f32_subnormal (m k : Nat) (hm1 : 2 ^ k ≤ m)
    (hm2 : m < 2 ^ (k + 1)) (hk : k ≤ 22) :
    roundFloatMag 23 (-149) 255 (m * 2 ^ (52 - k)) ((k : Int) - 201) = m := by
  have h2k : 0 < 2 ^ k := Nat.pos_pow_of_pos k (by norm_num)
  have hm0 : m ≠ 0 := by omega
  have hm23 : m < 2 ^ 23 := by
    calc m < 2 ^ (k + 1) := hm2
    _ ≤ 2 ^ 23 := Nat.pow_le_pow_right (by norm_num) (by omega)
  have hM0 : m * 2 ^ (52 - k) ≠ 0 := by positivity
  have hlog : natLog2 (m * 2 ^ (52 - k)) = 52 := by
    apply log2_eq_of_bounds
    · calc 2 ^ 52 = 2 ^ k * 2 ^ (52 - k) := by
            rw [← pow_add]
            congr 1
            omega
      _ ≤ m * 2 ^ (52 - k) := Nat.mul_le_mul_right _ hm1
    · calc m * 2 ^ (52 - k) < 2 ^ (k + 1) * 2 ^ (52 - k) :=
            mul_lt_mul_of_pos_right hm2 (by positivity)
      _ = 2 ^ 53 := by
            rw [← pow_add]
            congr 1
            omega
  simp only [roundFloatMag]
  rw [if_neg hM0, hlog]
  rw [if_neg (show ¬ (((52 : Nat) : Int) + ((k : Int) - 201) - (23 : Nat)) ⊔ (-149) ≤
    (k : Int) - 201 from by omega)]
  rw [show ((((52 : Nat) : Int) + ((k : Int) - 201) - (23 : Nat)) ⊔ (-149) -
    ((k : Int) - 201)).toNat = 52 - k from by omega]
  rw [rshiftRNE_mul_pow]
  simp only [if_neg (show ¬ (2 : Nat) ^ (23 + 1) ≤ m from by omega)]
  rw [if_pos hm23]

/-- The generic rounder on the exact normal shapes produced by widening a
binary32 normal. -/
theorem roundFloatMag_f32_normal (m e : Nat) (hm : m < 2 ^ 23)
    (he1 : 1 ≤ e) (he2 : e ≤ 254) :
    roundFloatMag 23 (-149) 255 ((2 ^ 23 + m) * 2 ^ 29) ((e : Int) - 179) =
      e * 2 ^ 23 + m := by
  have hM0 : (2 ^ 23 + m) * 2 ^ 29 ≠ 0 := by positivity
  have hlog : natLog2 ((2 ^ 23 + m) * 2 ^ 29) = 52 := by
    apply log2_eq_of_bounds
    · calc (2 ^ 52 : Nat) = 2 ^ 23 * 2 ^ 29 := by norm_num
      _ ≤ (2 ^ 23 + m) * 2 ^ 29 := Nat.mul_le_mul_right _ (by omega)
    · calc (2 ^ 23 + m) * 2 ^ 29 < 2 ^ 24 * 2 ^ 29 :=
            mul_lt_mul_of_pos_right (by omega) (by positivity)
      _ = 2 ^ 53 := by norm_num
  simp only [roundFloatMag]
  rw [if_neg hM0, hlog]
  rw [if_neg (show ¬ (((52 : Nat) : Int) + ((e : Int) - 179) - (23 : Nat)) ⊔ (-149) ≤
    (e : Int) - 179 from by omega)]
  rw [show ((((52 : Nat) : Int) + ((e : Int) - 179) - (23 : Nat)) ⊔ (-149) -
    ((e : Int) - 179)).toNat = 29 from by omega]
  rw [rshiftRNE_mul_pow]
  simp only [if_neg (show ¬ (2 : Nat) ^ (23 + 1) ≤ 2 ^ 23 + m from by omega)]
  rw [if_neg (show ¬ (2 : Nat) ^ 23 + m < 2 ^ 23 from by omega)]
  rw [if_neg (show ¬ ((255 : Nat) : Int) ≤
    (((52 : Nat) : Int) + ((e : Int) - 179) - (23 : Nat)) ⊔ (-149) - (-149) + 1 from by omega)]
  rw [show ((((52 : Nat) : Int) + ((e : Int) - 179) - (23 : Nat)) ⊔ (-149) - (-149) +
    1).toNat = e from by omega]
  omega

/-- Narrowing inverts widening on every non-NaN binary32 pattern. -/
theorem f64ToF32_f32ToF64 (w : Nat) (hw : w < 2 ^ 32)
    (hnan : ¬ isNaN32 w) : f64ToF32 (f32ToF64 w) = w := by
  unfold isNaN32 at hnan
  obtain ⟨hdec, hs, he, hm⟩ := f32_decompose w hw
  set s := f32Sign w with hs_def
  set e := f32Exp w with he_def
  set m := f32Frac w with hm_def
  simp only [f32ToF64, ← hs_def, ← he_def, ← hm_def]
  by_cases he255 : e = 255
  · -- infinity (NaN is excluded)
    have hm0 : m = 0 := by
      by_contra hc
      exact hnan ⟨he255, hc⟩
    rw [if_pos he255, hm0]
    simp only [f64ToF32]
    rw [show f64Sign (s * 2 ^ 63 + 2047 * 2 ^ 52 + 0 * 2 ^ 29) = s from by
        unfold f64Sign; omega,
      show f64Exp (s * 2 ^ 63 + 2047 * 2 ^ 52 + 0 * 2 ^ 29) = 2047 from by
        unfold f64Exp; omega,
      show f64Frac (s * 2 ^ 63 + 2047 * 2 ^ 52 + 0 * 2 ^ 29) = 0 from by
        unfold f64Frac; omega]
    rw [if_pos rfl, if_pos rfl]
    omega
  · rw [if_neg he255]
    by_cases he0 : e = 0
    · by_cases hm0 : m = 0
      · -- signed zero
        rw [if_pos he0, if_pos hm0]
        simp only [f64ToF32]
        rw [show f64Sign (s * 2 ^ 63) = s from by unfold f64Sign; omega,
          show f64Exp (s * 2 ^ 63) = 0 from by unfold f64Exp; omega,
          show f64Frac (s * 2 ^ 63) = 0 from by unfold f64Frac; omega]
        rw [if_neg (by omega), if_pos rfl, if_pos rfl]
        simp only [roundFloatMag, if_true]
        omega
      · -- binary32 subnormal
        rw [if_pos he0, if_neg hm0]
        set k := natLog2 m with hk_def
        have hk1 : 2 ^ k ≤ m := by
          rw [hk_def, natLog2_eq]
          exact Nat.log2_self_le hm0
        have hk2 : m < 2 ^ (k + 1) := by
          rw [hk_def, natLog2_eq, Nat.log2_eq_log_two]
          exact Nat.lt_pow_succ_log_self (by norm_num) m
        have hk22 : k ≤ 22 := by
          by_contra hc
          push_neg at hc
          have h23 : (2 : Nat) ^ 23 ≤ 2 ^ k := Nat.pow_le_pow_right (by norm_num) (by omega)
          omega
        have h2k : 0 < 2 ^ k := Nat.pos_pow_of_pos k (by norm_num)
        have hfrac_lt : (m - 2 ^ k) * 2 ^ (52 - k) < 2 ^ 52 := by
          calc (m - 2 ^ k) * 2 ^ (52 - k) < 2 ^ k * 2 ^ (52 - k) :=
                mul_lt_mul_of_pos_right (by omega) (by positivity)
          _ = 2 ^ 52 := by
                rw [← pow_add]
                congr 1
                omega
        simp only [f64ToF32]
        rw [show f64Sign (s * 2 ^ 63 + (k + 874) * 2 ^ 52 + (m - 2 ^ k) * 2 ^ (52 - k)) = s
            from by unfold f64Sign; omega,
          show f64Exp (s * 2 ^ 63 + (k + 874) * 2 ^ 52 + (m - 2 ^ k) * 2 ^ (52 - k)) = k + 874
            from by unfold f64Exp; omega,
          show f64Frac (s * 2 ^ 63 + (k + 874) * 2 ^ 52 + (m - 2 ^ k) * 2 ^ (52 - k)) =
            (m - 2 ^ k) * 2 ^ (52 - k) from by unfold f64Frac; omega]
        rw [if_neg (by omega), if_neg (by omega)]
        rw [show (2 : Nat) ^ 52 + (m - 2 ^ k) * 2 ^ (52 - k) = m * 2 ^ (52 - k) from by
          have h1 : (2 : Nat) ^ 52 = 2 ^ k * 2 ^ (52 - k) := by
            rw [← pow_add]
            congr 1
            omega
          rw [h1, ← Nat.add_mul]
          congr 1
          omega]
        rw [show ((k + 874 : Nat) : Int) - 1075 = (k : Int) - 201 from by push_cast; ring]
        rw [if_neg (show ¬ (k + 874 = 0) from by omega)]
        rw [roundFloatMag_f32_subnormal m k hk1 hk2 hk22]
        omega
    · -- binary32 normal
      rw [if_neg he0]
      have hfrac_lt : m * 2 ^ 29 < 2 ^ 52 := by
        calc m * 2 ^ 29 < 2 ^ 23 * 2 ^ 29 := mul_lt_mul_of_pos_right hm (by positivity)
        _ = 2 ^ 52 := by norm_num
      simp only [f64ToF32]
      rw [show f64Sign (s * 2 ^ 63 + (e + 896) * 2 ^ 52 + m * 2 ^ 29) = s from by
          unfold f64Sign; omega,
        show f64Exp (s * 2 ^ 63 + (e + 896) * 2 ^ 52 + m * 2 ^ 29) = e + 896 from by
          unfold f64Exp; omega,
        show f64Frac (s * 2 ^ 63 + (e + 896) * 2 ^ 52 + m * 2 ^ 29) = m * 2 ^ 29 from by
          unfold f64Frac; omega]
      rw [if_neg (by omega), if_neg (by omega)]
      rw [show (2 : Nat) ^ 52 + m * 2 ^ 29 = (2 ^ 23 + m) * 2 ^ 29 from by ring]
      rw [show ((e + 896 : Nat) : Int) - 1075 = (e : Int) - 179 from by push_cast; ring]
      rw [if_neg (show ¬ (e + 896 = 0) from by omega)]
      rw [roundFloatMag_f32_normal m e hm (by omega) (by omega)]
      omega

/-- Binary16 exponent field. -/
def f16Exp (h : Nat) : Nat := h / 2 ^ 10 % 2 ^ 5

/-- Binary16 fraction field. -/
def f16Frac (h : Nat) : Nat := h % 2 ^ 10

/-- The binary16 patterns the repository's float16 helpers handle exactly:
zeros, infinities and normal halves.  (Subnormal halves are mangled by the
helpers — see the round-trip counterexample.) -/
def isExactF16 (h : Nat) : Prop :=
  h < 2 ^ 16 ∧
  ((1 ≤ f16Exp h ∧ f16Exp h ≤ 30) ∨ (f16Frac h = 0 ∧ (f16Exp h = 0 ∨ f16Exp h = 31)))

instance (h : Nat) : Decidable (isExactF16 h) := by
  unfold isExactF16; infer_instance

/-- On the exactly-handled binary16 patterns, the repository's pair of
half-precision helpers round-trips, the widened pattern is a valid binary32
below `2^32`, and it is not a NaN. -/
theorem floatU16_roundtrip (h : Nat) (hv : isExactF16 h) :
    floatU32ToU16 (floatU16ToU32 h) = h ∧
    floatU16ToU32 h < 2 ^ 32 ∧ ¬ isNaN32 (floatU16ToU32 h) := by
  obtain ⟨h16, hcase⟩ := hv
  unfold f16Exp f16Frac at hcase
  rcases hcase with ⟨hlo, hhi⟩ | ⟨hfrac, hexp⟩
  · -- normal halves
    have hu : floatU16ToU32 h =
        h / 2 ^ 15 % 2 * 2 ^ 31 + (h / 2 ^ 10 % 2 ^ 5 + 112) * 2 ^ 23 +
          h % 2 ^ 10 * 2 ^ 13 := by
      simp only [floatU16ToU32]
      rw [if_neg (by omega), if_neg (by omega)]
      omega
    rw [hu]
    refine ⟨?_, by omega, ?_⟩
    · simp only [floatU32ToU16]
      rw [show (h / 2 ^ 15 % 2 * 2 ^ 31 + (h / 2 ^ 10 % 2 ^ 5 + 112) * 2 ^ 23 +
          h % 2 ^ 10 * 2 ^ 13) / 2 ^ 23 % 2 ^ 8 = h / 2 ^ 10 % 2 ^ 5 + 112 from by omega]
      rw [if_neg (by omega), if_neg (by omega)]
      have ht : ((((h / 2 ^ 10 % 2 ^ 5 + 112 : Nat) : Int) - 112) * 2 ^ 10 %
          (2 : Int) ^ 32).toNat = h / 2 ^ 10 % 2 ^ 5 * 2 ^ 10 := by omega
      rw [ht]
      omega
    · unfold isNaN32 f32Exp
      intro hc
      omega
  · rcases hexp with hexp | hexp
    · -- signed zero
      have hh : h = h / 2 ^ 15 % 2 * 2 ^ 15 := by omega
      have hu : floatU16ToU32 h = h / 2 ^ 15 % 2 * 2 ^ 31 := by
        simp only [floatU16ToU32]
        rw [if_neg (by omega), if_pos hexp]
        omega
      rw [hu]
      refine ⟨?_, by omega, ?_⟩
      · simp only [floatU32ToU16]
        rw [show (h / 2 ^ 15 % 2 * 2 ^ 31) / 2 ^ 23 % 2 ^ 8 = 0 from by omega]
        rw [if_neg (by omega), if_pos rfl]
        omega
      · unfold isNaN32 f32Exp
        intro hc
        omega
    · -- signed infinity
      have hu : floatU16ToU32 h = h / 2 ^ 15 % 2 * 2 ^ 31 + 0x7F800000 := by
        simp only [floatU16ToU32]
        rw [if_pos hexp]
        rw [if_neg (by omega)]
      rw [hu]
      refine ⟨?_, by omega, ?_⟩
      · simp only [floatU32ToU16]
        rw [show (h / 2 ^ 15 % 2 * 2 ^ 31 + 0x7F800000) / 2 ^ 23 % 2 ^ 8 = 255 from by
          omega]
        rw [if_pos rfl]
        rw [if_neg (by omega)]
        omega
      · unfold isNaN32 f32Exp f32Frac
        intro hc
        omega

/-! ## Claim C1 — pack/unpack round trip

The claim quantifies over format strings made of an optional byte-order
prefix and one item; `mkFmt` builds exactly those strings. -/

/-- A one-item format string: optional prefix, optional repeat digits, one
type code. -/
def mkFmt (pre : Option Char) (ds : List Char) (t : Char) : String :=
  String.mk (pre.toList ++ ds ++ [t])

/-- The value `_.parseInt` assigns to a digit run, starting from `a`. -/
def digitsAccum (a : Nat) (ds : List Char) : Nat :=
  ds.foldl (fun x c => x * 10 + (c.toNat - 48)) a

/-- The repeat count of an item: its digit prefix's value, 1 when absent. -/
def effRep (ds : List Char) : Nat :=
  if ds.isEmpty then 1 else digitsAccum 0 ds

/-- The byte order a parse resolves for a given prefix. -/
def resolveByteOrder (nle : Bool) (pre : Option Char) : Bool :=
  if pre ∈ [none, some '@', some '='] then nle else pre = some '<'

theorem code_not_digit (t : Char) (h : isPackTypeCode t = true) : t.isDigit = false := by
  simp only [isPackTypeCode, List.mem_cons, List.not_mem_nil, or_false,
    decide_eq_true_eq] at h
  rcases h with rfl | rfl | rfl | rfl | rfl | rfl | rfl | rfl | rfl | rfl | rfl |
    rfl | rfl | rfl | rfl | rfl | rfl | rfl <;> decide

theorem code_not_byteorder (t : Char) (h : isPackTypeCode t = true) :
    isByteOrderPrefix t = false := by
  simp only [isPackTypeCode, List.mem_cons, List.not_mem_nil, or_false,
    decide_eq_true_eq] at h
  rcases h with rfl | rfl | rfl | rfl | rfl | rfl | rfl | rfl | rfl | rfl | rfl |
    rfl | rfl | rfl | rfl | rfl | rfl | rfl <;> decide

theorem digit_not_byteorder (c : Char) (h : c.isDigit = true) :
    isByteOrderPrefix c = false := by
  by_contra hc
  rw [Bool.not_eq_false] at hc
  simp only [isByteOrderPrefix, List.mem_cons, List.not_mem_nil, or_false,
    decide_eq_true_eq] at hc
  rcases hc with rfl | rfl | rfl | rfl | rfl <;> simp at h

/-- The tokenizer on a digit run followed by a type code, with pending
accumulator. -/
theorem parseItemsAux_digits_item : ∀ (ds : List Char) (a : Nat) (t : Char),
    (∀ c ∈ ds, c.isDigit = true) → isPackTypeCode t = true →
    parseItemsAux (ds ++ [t]) (some a) =
      some [(clampRepeat t (digitsAccum a ds), t)] := by
  intro ds
  induction ds with
  | nil =>
    intro a t _ ht
    rw [List.nil_append]
    rw [parseItemsAux]
    rw [if_neg (by rw [code_not_digit t ht]; simp)]
    rw [if_pos ht]
    rfl
  | cons d ds ih =>
    intro a t hds ht
    rw [List.cons_append, parseItemsAux]
    rw [if_pos (hds d (List.mem_cons_self _ _))]
    rw [ih _ t (fun c hc => hds c (List.mem_cons_of_mem _ hc)) ht]
    rfl

/-- The tokenizer on a single item. -/
theorem parseItemsAux_item (ds : List Char) (t : Char)
    (hds : ∀ c ∈ ds, c.isDigit = true) (ht : isPackTypeCode t = true) :
    parseItemsAux (ds ++ [t]) none =
      some [(clampRepeat t (effRep ds), t)] := by
  cases ds with
  | nil =>
    rw [List.nil_append, parseItemsAux]
    rw [if_neg (by rw [code_not_digit t ht]; simp)]
    rw [if_pos ht]
    rfl
  | cons d ds =>
    rw [List.cons_append, parseItemsAux]
    rw [if_pos (hds d (List.mem_cons_self _ _))]
    rw [parseItemsAux_digits_item ds _ t (fun c hc => hds c (List.mem_cons_of_mem _ hc)) ht]
    rfl

/-- Parsing a one-item format string yields the resolved byte order and the
single (clamped) item. -/
theorem packParseFormat_mkFmt (nle : Bool) (pre : Option Char) (ds : List Char)
    (t : Char) (hpre : ∀ c, pre = some c → isByteOrderPrefix c = true)
    (hds : ∀ c ∈ ds, c.isDigit = true) (ht : isPackTypeCode t = true) :
    packParseFormat nle (mkFmt pre ds t) =
      .ok ⟨resolveByteOrder nle pre, [(clampRepeat t (effRep ds), t)]⟩ := by
  cases pre with
  | none =>
    cases ds with
    | nil =>
      have hdata : (mkFmt none [] t).data = t :: ([] ++ [t]).tail := rfl
      rw [packParseFormat, hdata]
      simp only [List.nil_append, List.tail_cons]
      simp only [code_not_byteorder t ht, Bool.false_eq_true, if_false]
      rw [show (t :: [] : List Char) = [] ++ [t] from rfl,
        parseItemsAux_item [] t (by simp) ht]
      simp [resolveByteOrder]
    | cons d ds' =>
      have hd : isByteOrderPrefix d = false :=
        digit_not_byteorder d (hds d (List.mem_cons_self _ _))
      have hdata : (mkFmt none (d :: ds') t).data = d :: (ds' ++ [t]) := rfl
      rw [packParseFormat, hdata]
      simp only [hd, Bool.false_eq_true, if_false]
      rw [show d :: (ds' ++ [t]) = (d :: ds') ++ [t] from rfl,
        parseItemsAux_item (d :: ds') t hds ht]
      simp [resolveByteOrder]
  | some c =>
    have hc := hpre c rfl
    have hdata : (mkFmt (some c) ds t).data = c :: (ds ++ [t]) := rfl
    rw [packParseFormat, hdata]
    simp only [hc, if_true]
    rw [parseItemsAux_item ds t hds ht]
    have hne : (ds ++ [t]).isEmpty = false := by
      cases ds <;> rfl
    rw [hne]
    simp [resolveByteOrder]

/-- The valid domain of a single-item format of type `t` with (clamped)
repeat `R`: the value shapes and ranges whose pack/unpack round trip is
exact.  Scalar codes take one value (`R = 1`); `s` takes a byte string of
exactly the field width; `p` a byte string fitting after the length
prefix.  Floats exclude NaNs (JS `NaN !== NaN`), and `e` is restricted to
the binary16 patterns the helpers handle exactly (the subnormal halves are
the round-trip counterexample). -/
def validDomain (R : Nat) (t : Char) (v : PackVal) : Prop :=
  (t = 'c' ∧ R = 1 ∧ ∃ b : Nat, v = .bytes [b] ∧ b < 256) ∨
  (t = 'b' ∧ R = 1 ∧ ∃ i : Int, v = .int i ∧ -(2 ^ 7) ≤ i ∧ i < 2 ^ 7) ∨
  (t = 'B' ∧ R = 1 ∧ ∃ i : Int, v = .int i ∧ 0 ≤ i ∧ i < 2 ^ 8) ∨
  (t = '?' ∧ R = 1 ∧ ∃ b : Bool, v = .bool b) ∨
  (t = 'h' ∧ R = 1 ∧ ∃ i : Int, v = .int i ∧ -(2 ^ 15) ≤ i ∧ i < 2 ^ 15) ∨
  (t = 'H' ∧ R = 1 ∧ ∃ i : Int, v = .int i ∧ 0 ≤ i ∧ i < 2 ^ 16) ∨
  ((t = 'i' ∨ t = 'l') ∧ R = 1 ∧ ∃ i : Int, v = .int i ∧ -(2 ^ 31) ≤ i ∧ i < 2 ^ 31) ∨
  ((t = 'I' ∨ t = 'L') ∧ R = 1 ∧ ∃ i : Int, v = .int i ∧ 0 ≤ i ∧ i < 2 ^ 32) ∨
  (t = 'q' ∧ R = 1 ∧ ∃ i : Int, v = .bigint i ∧ -(2 ^ 63) ≤ i ∧ i < 2 ^ 63) ∨
  (t = 'Q' ∧ R = 1 ∧ ∃ i : Int, v = .bigint i ∧ 0 ≤ i ∧ i < 2 ^ 64) ∨
  (t = 'e' ∧ R = 1 ∧ ∃ h : Nat, v = .f64 (f32ToF64 (floatU16ToU32 h)) ∧ isExactF16 h) ∨
  (t = 'f' ∧ R = 1 ∧ ∃ w : Nat, v = .f64 (f32ToF64 w) ∧ w < 2 ^ 32 ∧ ¬ isNaN32 w) ∨
  (t = 'd' ∧ R = 1 ∧ ∃ b : Nat, v = .f64 b ∧ b < 2 ^ 64 ∧ ¬ isNaN64 b) ∨
  (t = 's' ∧ ∃ bs : List Nat, v = .bytes bs ∧ bs.length = R ∧ ∀ b ∈ bs, b < 256) ∨
  (t = 'p' ∧ 1 ≤ R ∧ R ≤ 255 ∧
    ∃ bs : List Nat, v = .bytes bs ∧ bs.length ≤ R - 1 ∧ ∀ b ∈ bs, b < 256)

theorem validDomain_code (R : Nat) (t : Char) (v : PackVal)
    (h : validDomain R t v) : isPackTypeCode t = true := by
  rcases h with ⟨rfl, -⟩ | ⟨rfl, -⟩ | ⟨rfl, -⟩ | ⟨rfl, -⟩ | ⟨rfl, -⟩ | ⟨rfl, -⟩ |
    ⟨rfl | rfl, -⟩ | ⟨rfl | rfl, -⟩ | ⟨rfl, -⟩ | ⟨rfl, -⟩ | ⟨rfl, -⟩ | ⟨rfl, -⟩ |
    ⟨rfl, -⟩ | ⟨rfl, -⟩ | ⟨rfl, -⟩ <;> rfl

theorem toSafeIntegerVal_int (i : Int) (hlo : -(2 ^ 53 - 1) ≤ i)
    (hhi : i ≤ 2 ^ 53 - 1) : toSafeIntegerVal (.int i) = .ok i := by
  simp only [toSafeIntegerVal, Except.ok.injEq]
  omega

theorem map_mod256_eq (bs : List Nat) (h : ∀ b ∈ bs, b < 256) :
    bs.map (· % 256) = bs := by
  induction bs with
  | nil => rfl
  | cons b bs ih =>
    rw [List.map_cons, ih (fun x hx => h x (List.mem_cons_of_mem _ hx)),
      Nat.mod_eq_of_lt (h b (List.mem_cons_self _ _))]

theorem bufferFromVal_bytes (bs : List Nat) (h : ∀ b ∈ bs, b < 256) :
    bufferFromVal (.bytes bs) = .ok bs := by
  rw [show bufferFromVal (.bytes bs) = .ok (bs.map (· % 256)) from rfl,
    map_mod256_eq bs h]

theorem set_append_length {α : Type} (x : α) : ∀ (p l : List α),
    (p ++ l).set p.length x = p ++ l.set 0 x := by
  intro p
  induction p with
  | nil => intro l; rfl
  | cons a p ih =>
    intro l
    show (a :: (p ++ l)).set (p.length + 1) x = a :: (p ++ l.set 0 x)
    rw [show (a :: (p ++ l)).set (p.length + 1) x = a :: (p ++ l).set p.length x from rfl,
      ih l]

theorem writeBytesAt_zone : ∀ (bs p mid q : List Nat), mid.length = bs.length →
    writeBytesAt (p ++ mid ++ q) p.length bs = p ++ bs ++ q := by
  intro bs
  induction bs with
  | nil =>
    intro p mid q hm
    have hmid : mid = [] := List.eq_nil_of_length_eq_zero hm
    subst hmid
    rfl
  | cons b bs ih =>
    intro p mid q hm
    cases mid with
    | nil => simp at hm
    | cons m0 mid' =>
      rw [writeBytesAt]
      have hset : (p ++ (m0 :: mid') ++ q).set p.length b = (p ++ [b]) ++ mid' ++ q := by
        rw [List.append_assoc, set_append_length]
        simp
      rw [hset]
      have hlen : p.length + 1 = (p ++ [b]).length := by simp
      rw [hlen, ih (p ++ [b]) mid' q (by simpa using hm)]
      simp

theorem writeBytesAt_replicate_full (bs : List Nat) (n : Nat) (h : bs.length = n) :
    writeBytesAt (List.replicate n 0) 0 bs = bs := by
  have hp := writeBytesAt_zone bs [] (List.replicate n 0) []
    (by simp [h])
  simpa using hp

theorem writeBytesAt_replicate_one (bs : List Nat) (R : Nat) (h1 : 1 ≤ R)
    (h2 : bs.length ≤ R - 1) :
    writeBytesAt (List.replicate R 0) 1 bs =
      0 :: (bs ++ List.replicate (R - 1 - bs.length) 0) := by
  have hrepl : List.replicate R (0 : Nat) =
      [0] ++ List.replicate bs.length 0 ++ List.replicate (R - 1 - bs.length) 0 := by
    rw [show ([0] : List Nat) = List.replicate 1 0 from rfl, ← List.replicate_add,
      ← List.replicate_add]
    congr 1
    omega
  have hp := writeBytesAt_zone bs [0] (List.replicate bs.length 0)
    (List.replicate (R - 1 - bs.length) 0) (by simp)
  rw [hrepl]
  simpa using hp

theorem packScalarLoop_one (w : Nat)
    (write : List Nat → Nat → PackVal → Except JsError (List Nat))
    (buf : List Nat) (le : Bool) (off : Nat) (v : PackVal) (buf' : List Nat)
    (h : write buf off v = .ok buf') :
    packScalarLoop w write 1 ⟨buf, le, off, [v]⟩ = .ok ⟨buf', le, off + w, []⟩ := by
  rw [show (1 : Nat) = 0 + 1 from rfl, packScalarLoop]
  simp only []
  rw [h]
  rfl

theorem unpackScalarLoop_one (w : Nat) (read : List Nat → Nat → PackVal)
    (buf : List Nat) (le : Bool) (off : Nat) (vs : List PackVal) :
    unpackScalarLoop w read 1 ⟨buf, le, off, vs⟩ =
      ⟨buf, le, off + w, vs ++ [read buf off]⟩ := rfl

theorem bind_ok_write {A : Type} (conv : PackVal → Except JsError A)
    (f : A → List Nat) (v : PackVal) (a : A) (h : conv v = .ok a) :
    (do let x ← conv v; pure (f x) : Except JsError (List Nat)) = .ok (f a) := by
  rw [show (do let x ← conv v; pure (f x) : Except JsError (List Nat)) =
    Except.bind (conv v) (fun x => pure (f x)) from rfl, h]
  rfl

/-- One-item round trip: packing a valid value `v` of type `t` into a fresh
zeroed field and unpacking the field recovers exactly `[v]`. -/
theorem packOne_unpackOne_roundtrip (le : Bool) (R : Nat) (t : Char) (v : PackVal)
    (hd : validDomain R t v) :
    ∃ bufP : List Nat,
      packOne R t ⟨List.replicate (itemSize (R, t)) 0, le, 0, [v]⟩ =
        .ok ⟨bufP, le, itemSize (R, t), []⟩ ∧
      bufP.length = itemSize (R, t) ∧
      ∃ ctxU : PackCtx, unpackOne R t ⟨bufP, le, 0, []⟩ = .ok ctxU ∧
        ctxU.vals = [v] := by
  rcases hd with
    ⟨rfl, rfl, b, rfl, hb⟩ |
    ⟨rfl, rfl, i, rfl, hlo, hhi⟩ |
    ⟨rfl, rfl, i, rfl, hlo, hhi⟩ |
    ⟨rfl, rfl, bb, rfl⟩ |
    ⟨rfl, rfl, i, rfl, hlo, hhi⟩ |
    ⟨rfl, rfl, i, rfl, hlo, hhi⟩ |
    ⟨rfl | rfl, rfl, i, rfl, hlo, hhi⟩ |
    ⟨rfl | rfl, rfl, i, rfl, hlo, hhi⟩ |
    ⟨rfl, rfl, i, rfl, hlo, hhi⟩ |
    ⟨rfl, rfl, i, rfl, hlo, hhi⟩ |
    ⟨rfl, rfl, hh, rfl, hex⟩ |
    ⟨rfl, rfl, w32, rfl, hw32, hnan⟩ |
    ⟨rfl, rfl, bb, rfl, hb64, hnan⟩ |
    ⟨rfl, bs, rfl, hlen, hblt⟩ |
    ⟨rfl, hR1, hR255, bs, rfl, hbsL, hblt⟩
  -- 'c'
  · refine ⟨[b % 256], ?_, ?_, ?_⟩
    · have hdisp : ∀ ctx, packOne 1 'c' ctx = packFromChar 1 ctx := fun _ => rfl
      rw [hdisp, packFromChar]
      exact packScalarLoop_one 1 _ _ le 0 _ _
        (bind_ok_write bufferFromVal
          (fun bs => (List.replicate (itemSize (1, 'c')) 0).set 0 (bs.headD 0 % 256))
          (.bytes [b]) [b] (bufferFromVal_bytes [b] (by simpa using hb)))
    · rfl
    · have hu : ∀ ctx, unpackOne 1 'c' ctx = .ok (unpackToChar 1 ctx) := fun _ => rfl
      rw [hu]
      refine ⟨_, rfl, ?_⟩
      show [PackVal.bytes (subarrayList [b % 256] 0 (0 + 1))] = [.bytes [b]]
      rw [show subarrayList [b % 256] 0 (0 + 1) = [b % 256] from rfl,
        Nat.mod_eq_of_lt hb]
  -- 'b'
  · refine ⟨dvSet 1 le (List.replicate (itemSize (1, 'b')) 0) 0 i, ?_, ?_, ?_⟩
    · have hdisp : ∀ ctx, packOne 1 'b' ctx = packFromInt8 1 ctx := fun _ => rfl
      rw [hdisp, packFromInt8]
      simp only []
      exact packScalarLoop_one 1 _ _ le 0 _ _
        (bind_ok_write toSafeIntegerVal
          (fun x => dvSet 1 le (List.replicate (itemSize (1, 'b')) 0) 0 x)
          (.int i) i (toSafeIntegerVal_int i (by omega) (by omega)))
    · simp [dvSet_length]
    · have hu : ∀ ctx, unpackOne 1 'b' ctx = .ok (unpackToInt8 true 1 ctx) := fun _ => rfl
      rw [hu]
      refine ⟨_, rfl, ?_⟩
      show [PackVal.int (dvGetInt 1 le
        (dvSet 1 le (List.replicate (itemSize (1, 'b')) 0) 0 i) 0)] = [.int i]
      rw [dvGetInt_dvSet 1 le (List.replicate (itemSize (1, 'b')) 0) 0 i
        (by norm_num) (by decide) hlo hhi]
  -- 'B'
  · refine ⟨dvSet 1 le (List.replicate (itemSize (1, 'B')) 0) 0 i, ?_, ?_, ?_⟩
    · have hdisp : ∀ ctx, packOne 1 'B' ctx = packFromInt8 1 ctx := fun _ => rfl
      rw [hdisp, packFromInt8]
      simp only []
      exact packScalarLoop_one 1 _ _ le 0 _ _
        (bind_ok_write toSafeIntegerVal
          (fun x => dvSet 1 le (List.replicate (itemSize (1, 'B')) 0) 0 x)
          (.int i) i (toSafeIntegerVal_int i (by omega) (by omega)))
    · simp [dvSet_length]
    · have hu : ∀ ctx, unpackOne 1 'B' ctx = .ok (unpackToInt8 false 1 ctx) := fun _ => rfl
      rw [hu]
      refine ⟨_, rfl, ?_⟩
      show [PackVal.int ((dvGetUint 1 le
        (dvSet 1 le (List.replicate (itemSize (1, 'B')) 0) 0 i) 0 : Int))] = [.int i]
      rw [dvGetUint_dvSet 1 le (List.replicate (itemSize (1, 'B')) 0) 0 i
        (by decide) hlo hhi, Int.toNat_of_nonneg hlo]
  -- '?'
  · cases bb with
    | true =>
      refine ⟨dvSet 1 le (List.replicate (itemSize (1, '?')) 0) 0 1, ?_, ?_, ?_⟩
      · have hdisp : ∀ ctx, packOne 1 '?' ctx = packFromBool 1 ctx := fun _ => rfl
        rw [hdisp, packFromBool]
        simp only []
        exact packScalarLoop_one 1 _ _ le 0 _ _ rfl
      · simp [dvSet_length]
      · have hu : ∀ ctx, unpackOne 1 '?' ctx = .ok (unpackToBool 1 ctx) := fun _ => rfl
        rw [hu]
        refine ⟨_, rfl, ?_⟩
        show [PackVal.bool (decide (dvGetUint 1 le
          (dvSet 1 le (List.replicate (itemSize (1, '?')) 0) 0 1) 0 ≠ 0))] = [.bool true]
        rw [dvGetUint_dvSet 1 le (List.replicate (itemSize (1, '?')) 0) 0 1
          (by decide) (by norm_num) (by norm_num)]
        rfl
    | false =>
      refine ⟨dvSet 1 le (List.replicate (itemSize (1, '?')) 0) 0 0, ?_, ?_, ?_⟩
      · have hdisp : ∀ ctx, packOne 1 '?' ctx = packFromBool 1 ctx := fun _ => rfl
        rw [hdisp, packFromBool]
        simp only []
        exact packScalarLoop_one 1 _ _ le 0 _ _ rfl
      · simp [dvSet_length]
      · have hu : ∀ ctx, unpackOne 1 '?' ctx = .ok (unpackToBool 1 ctx) := fun _ => rfl
        rw [hu]
        refine ⟨_, rfl, ?_⟩
        show [PackVal.bool (decide (dvGetUint 1 le
          (dvSet 1 le (List.replicate (itemSize (1, '?')) 0) 0 0) 0 ≠ 0))] = [.bool false]
        rw [dvGetUint_dvSet 1 le (List.replicate (itemSize (1, '?')) 0) 0 0
          (by decide) (by norm_num) (by norm_num)]
        rfl
  -- 'h'
  · refine ⟨dvSet 2 le (List.replicate (itemSize (1, 'h')) 0) 0 i, ?_, ?_, ?_⟩
    · have hdisp : ∀ ctx, packOne 1 'h' ctx = packFromInt16 1 ctx := fun _ => rfl
      rw [hdisp, packFromInt16]
      simp only []
      exact packScalarLoop_one 2 _ _ le 0 _ _
        (bind_ok_write toSafeIntegerVal
          (fun x => dvSet 2 le (List.replicate (itemSize (1, 'h')) 0) 0 x)
          (.int i) i (toSafeIntegerVal_int i (by omega) (by omega)))
    · simp [dvSet_length]
    · have hu : ∀ ctx, unpackOne 1 'h' ctx = .ok (unpackToInt16 true 1 ctx) := fun _ => rfl
      rw [hu]
      refine ⟨_, rfl, ?_⟩
      show [PackVal.int (dvGetInt 2 le
        (dvSet 2 le (List.replicate (itemSize (1, 'h')) 0) 0 i) 0)] = [.int i]
      rw [dvGetInt_dvSet 2 le (List.replicate (itemSize (1, 'h')) 0) 0 i
        (by norm_num) (by decide) hlo hhi]
  -- 'H'
  · refine ⟨dvSet 2 le (List.replicate (itemSize (1, 'H')) 0) 0 i, ?_, ?_, ?_⟩
    · have hdisp : ∀ ctx, packOne 1 'H' ctx = packFromInt16 1 ctx := fun _ => rfl
      rw [hdisp, packFromInt16]
      simp only []
      exact packScalarLoop_one 2 _ _ le 0 _ _
        (bind_ok_write toSafeIntegerVal
          (fun x => dvSet 2 le (List.replicate (itemSize (1, 'H')) 0) 0 x)
          (.int i) i (toSafeIntegerVal_int i (by omega) (by omega)))
    · simp [dvSet_length]
    · have hu : ∀ ctx, unpackOne 1 'H' ctx = .ok (unpackToInt16 false 1 ctx) := fun _ => rfl
      rw [hu]
      refine ⟨_, rfl, ?_⟩
      show [PackVal.int ((dvGetUint 2 le
        (dvSet 2 le (List.replicate (itemSize (1, 'H')) 0) 0 i) 0 : Int))] = [.int i]
      rw [dvGetUint_dvSet 2 le (List.replicate (itemSize (1, 'H')) 0) 0 i
        (by decide) hlo hhi, Int.toNat_of_nonneg hlo]
  -- 'i'
  · refine ⟨dvSet 4 le (List.replicate (itemSize (1, 'i')) 0) 0 i, ?_, ?_, ?_⟩
    · have hdisp : ∀ ctx, packOne 1 'i' ctx = packFromInt32 1 ctx := fun _ => rfl
      rw [hdisp, packFromInt32]
      simp only []
      exact packScalarLoop_one 4 _ _ le 0 _ _
        (bind_ok_write toSafeIntegerVal
          (fun x => dvSet 4 le (List.replicate (itemSize (1, 'i')) 0) 0 x)
          (.int i) i (toSafeIntegerVal_int i (by omega) (by omega)))
    · simp [dvSet_length]
    · have hu : ∀ ctx, unpackOne 1 'i' ctx = .ok (unpackToInt32 true 1 ctx) := fun _ => rfl
      rw [hu]
      refine ⟨_, rfl, ?_⟩
      show [PackVal.int (dvGetInt 4 le
        (dvSet 4 le (List.replicate (itemSize (1, 'i')) 0) 0 i) 0)] = [.int i]
      rw [dvGetInt_dvSet 4 le (List.replicate (itemSize (1, 'i')) 0) 0 i
        (by norm_num) (by decide) hlo hhi]
  -- 'l'
  · refine ⟨dvSet 4 le (List.replicate (itemSize (1, 'l')) 0) 0 i, ?_, ?_, ?_⟩
    · have hdisp : ∀ ctx, packOne 1 'l' ctx = packFromInt32 1 ctx := fun _ => rfl
      rw [hdisp, packFromInt32]
      simp only []
      exact packScalarLoop_one 4 _ _ le 0 _ _
        (bind_ok_write toSafeIntegerVal
          (fun x => dvSet 4 le (List.replicate (itemSize (1, 'l')) 0) 0 x)
          (.int i) i (toSafeIntegerVal_int i (by omega) (by omega)))
    · simp [dvSet_length]
    · have hu : ∀ ctx, unpackOne 1 'l' ctx = .ok (unpackToInt32 true 1 ctx) := fun _ => rfl
      rw [hu]
      refine ⟨_, rfl, ?_⟩
      show [PackVal.int (dvGetInt 4 le
        (dvSet 4 le (List.replicate (itemSize (1, 'l')) 0) 0 i) 0)] = [.int i]
      rw [dvGetInt_dvSet 4 le (List.replicate (itemSize (1, 'l')) 0) 0 i
        (by norm_num) (by decide) hlo hhi]
  -- 'I'
  · refine ⟨dvSet 4 le (List.replicate (itemSize (1, 'I')) 0) 0 i, ?_, ?_, ?_⟩
    · have hdisp : ∀ ctx, packOne 1 'I' ctx = packFromInt32 1 ctx := fun _ => rfl
      rw [hdisp, packFromInt32]
      simp only []
      exact packScalarLoop_one 4 _ _ le 0 _ _
        (bind_ok_write toSafeIntegerVal
          (fun x => dvSet 4 le (List.replicate (itemSize (1, 'I')) 0) 0 x)
          (.int i) i (toSafeIntegerVal_int i (by omega) (by omega)))
    · simp [dvSet_length]
    · have hu : ∀ ctx, unpackOne 1 'I' ctx = .ok (unpackToInt32 false 1 ctx) := fun _ => rfl
      rw [hu]
      refine ⟨_, rfl, ?_⟩
      show [PackVal.int ((dvGetUint 4 le
        (dvSet 4 le (List.replicate (itemSize (1, 'I')) 0) 0 i) 0 : Int))] = [.int i]
      rw [dvGetUint_dvSet 4 le (List.replicate (itemSize (1, 'I')) 0) 0 i
        (by decide) hlo hhi, Int.toNat_of_nonneg hlo]
  -- 'L'
  · refine ⟨dvSet 4 le (List.replicate (itemSize (1, 'L')) 0) 0 i, ?_, ?_, ?_⟩
    · have hdisp : ∀ ctx, packOne 1 'L' ctx = packFromInt32 1 ctx := fun _ => rfl
      rw [hdisp, packFromInt32]
      simp only []
      exact packScalarLoop_one 4 _ _ le 0 _ _
        (bind_ok_write toSafeIntegerVal
          (fun x => dvSet 4 le (List.replicate (itemSize (1, 'L')) 0) 0 x)
          (.int i) i (toSafeIntegerVal_int i (by omega) (by omega)))
    · simp [dvSet_length]
    · have hu : ∀ ctx, unpackOne 1 'L' ctx = .ok (unpackToInt32 false 1 ctx) := fun _ => rfl
      rw [hu]
      refine ⟨_, rfl, ?_⟩
      show [PackVal.int ((dvGetUint 4 le
        (dvSet 4 le (List.replicate (itemSize (1, 'L')) 0) 0 i) 0 : Int))] = [.int i]
      rw [dvGetUint_dvSet 4 le (List.replicate (itemSize (1, 'L')) 0) 0 i
        (by decide) hlo hhi, Int.toNat_of_nonneg hlo]
  -- 'q'
  · refine ⟨dvSet 8 le (List.replicate (itemSize (1, 'q')) 0) 0 i, ?_, ?_, ?_⟩
    · have hdisp : ∀ ctx, packOne 1 'q' ctx = packFromBigInt64 1 ctx := fun _ => rfl
      rw [hdisp, packFromBigInt64]
      simp only []
      exact packScalarLoop_one 8 _ _ le 0 _ _
        (bind_ok_write bigIntFromVal
          (fun x => dvSet 8 le (List.replicate (itemSize (1, 'q')) 0) 0 x)
          (.bigint i) i rfl)
    · simp [dvSet_length]
    · have hu : ∀ ctx, unpackOne 1 'q' ctx = .ok (unpackToBigInt64 true 1 ctx) := fun _ => rfl
      rw [hu]
      refine ⟨_, rfl, ?_⟩
      show [PackVal.bigint (dvGetInt 8 le
        (dvSet 8 le (List.replicate (itemSize (1, 'q')) 0) 0 i) 0)] = [.bigint i]
      rw [dvGetInt_dvSet 8 le (List.replicate (itemSize (1, 'q')) 0) 0 i
        (by norm_num) (by decide) hlo hhi]
  -- 'Q'
  · refine ⟨dvSet 8 le (List.replicate (itemSize (1, 'Q')) 0) 0 i, ?_, ?_, ?_⟩
    · have hdisp : ∀ ctx, packOne 1 'Q' ctx = packFromBigInt64 1 ctx := fun _ => rfl
      rw [hdisp, packFromBigInt64]
      simp only []
      exact packScalarLoop_one 8 _ _ le 0 _ _
        (bind_ok_write bigIntFromVal
          (fun x => dvSet 8 le (List.replicate (itemSize (1, 'Q')) 0) 0 x)
          (.bigint i) i rfl)
    · simp [dvSet_length]
    · have hu : ∀ ctx, unpackOne 1 'Q' ctx = .ok (unpackToBigInt64 false 1 ctx) := fun _ => rfl
      rw [hu]
      refine ⟨_, rfl, ?_⟩
      show [PackVal.bigint ((dvGetUint 8 le
        (dvSet 8 le (List.replicate (itemSize (1, 'Q')) 0) 0 i) 0 : Int))] = [.bigint i]
      rw [dvGetUint_dvSet 8 le (List.replicate (itemSize (1, 'Q')) 0) 0 i
        (by decide) hlo hhi, Int.toNat_of_nonneg hlo]
  -- 'e'
  · obtain ⟨hrt, h32, hnanE⟩ := floatU16_roundtrip hh hex
    have hL1 : f64ToF32 (f32ToF64 (floatU16ToU32 hh)) = floatU16ToU32 hh :=
      f64ToF32_f32ToF64 _ h32 hnanE
    refine ⟨dvSet 2 le (List.replicate (itemSize (1, 'e')) 0) 0 (hh : Int), ?_, ?_, ?_⟩
    · have hdisp : ∀ ctx, packOne 1 'e' ctx = packFromFloat16 1 ctx := fun _ => rfl
      rw [hdisp, packFromFloat16]
      simp only []
      have hwrite := bind_ok_write numberFromVal
        (fun x => dvSet 2 le (List.replicate (itemSize (1, 'e')) 0) 0
          ((floatU32ToU16 (f64ToF32 x) : Nat) : Int))
        (.f64 (f32ToF64 (floatU16ToU32 hh))) (f32ToF64 (floatU16ToU32 hh)) rfl
      simp only [] at hwrite
      rw [hL1, hrt] at hwrite
      exact packScalarLoop_one 2 _ _ le 0 _ _ hwrite
    · simp [dvSet_length]
    · have hu : ∀ ctx, unpackOne 1 'e' ctx = .ok (unpackToFloat16 1 ctx) := fun _ => rfl
      rw [hu]
      refine ⟨_, rfl, ?_⟩
      show [PackVal.f64 (f32ToF64 (floatU16ToU32 (dvGetUint 2 le
        (dvSet 2 le (List.replicate (itemSize (1, 'e')) 0) 0 (hh : Int)) 0)))] =
        [.f64 (f32ToF64 (floatU16ToU32 hh))]
      rw [dvGetUint_dvSet_nat 2 le (List.replicate (itemSize (1, 'e')) 0) 0 hh
        (by decide) hex.1]
  -- 'f'
  · have hL1 : f64ToF32 (f32ToF64 w32) = w32 := f64ToF32_f32ToF64 w32 hw32 hnan
    refine ⟨dvSet 4 le (List.replicate (itemSize (1, 'f')) 0) 0 (w32 : Int), ?_, ?_, ?_⟩
    · have hdisp : ∀ ctx, packOne 1 'f' ctx = packFromFloat 1 ctx := fun _ => rfl
      rw [hdisp, packFromFloat]
      simp only []
      have hwrite := bind_ok_write numberFromVal
        (fun x => dvSet 4 le (List.replicate (itemSize (1, 'f')) 0) 0
          ((f64ToF32 x : Nat) : Int))
        (.f64 (f32ToF64 w32)) (f32ToF64 w32) rfl
      simp only [] at hwrite
      rw [hL1] at hwrite
      exact packScalarLoop_one 4 _ _ le 0 _ _ hwrite
    · simp [dvSet_length]
    · have hu : ∀ ctx, unpackOne 1 'f' ctx = .ok (unpackToFloat 1 ctx) := fun _ => rfl
      rw [hu]
      refine ⟨_, rfl, ?_⟩
      show [PackVal.f64 (f32ToF64 (dvGetUint 4 le
        (dvSet 4 le (List.replicate (itemSize (1, 'f')) 0) 0 (w32 : Int)) 0))] =
        [.f64 (f32ToF64 w32)]
      rw [dvGetUint_dvSet_nat 4 le (List.replicate (itemSize (1, 'f')) 0) 0 w32
        (by decide) hw32]
  -- 'd'
  · refine ⟨dvSet 8 le (List.replicate (itemSize (1, 'd')) 0) 0 (bb : Int), ?_, ?_, ?_⟩
    · have hdisp : ∀ ctx, packOne 1 'd' ctx = packFromDouble 1 ctx := fun _ => rfl
      rw [hdisp, packFromDouble]
      simp only []
      exact packScalarLoop_one 8 _ _ le 0 _ _
        (bind_ok_write numberFromVal
          (fun x => dvSet 8 le (List.replicate (itemSize (1, 'd')) 0) 0 ((x : Nat) : Int))
          (.f64 bb) bb rfl)
    · simp [dvSet_length]
    · have hu : ∀ ctx, unpackOne 1 'd' ctx = .ok (unpackToDouble 1 ctx) := fun _ => rfl
      rw [hu]
      refine ⟨_, rfl, ?_⟩
      show [PackVal.f64 (dvGetUint 8 le
        (dvSet 8 le (List.replicate (itemSize (1, 'd')) 0) 0 (bb : Int)) 0)] = [.f64 bb]
      rw [dvGetUint_dvSet_nat 8 le (List.replicate (itemSize (1, 'd')) 0) 0 bb
        (by decide) hb64]
  -- 's'
  · have hsz : itemSize (R, 's') = R := rfl
    rw [hsz]
    have hc1 : bufCopy bs (List.replicate R 0) 0 0 R = (bs, bs.length) := by
      unfold bufCopy
      simp only []
      rw [show subarrayList bs 0 R = bs.take R from rfl,
        List.take_of_length_le (le_of_eq hlen)]
      rw [if_neg (by simp [hlen])]
      rw [writeBytesAt_replicate_full bs R hlen]
    have hc2 : bufCopy bs (List.replicate R 0) 0 0 bs.length = (bs, bs.length) := by
      unfold bufCopy
      simp only []
      rw [show subarrayList bs 0 bs.length = bs.take bs.length from rfl,
        List.take_of_length_le (le_refl _)]
      rw [if_neg (by simp [hlen])]
      rw [writeBytesAt_replicate_full bs R hlen]
    refine ⟨bs, ?_, hlen, ?_⟩
    · have hdisp : ∀ ctx, packOne R 's' ctx = packFromString R ctx := fun _ => rfl
      rw [hdisp, packFromString]
      simp only []
      rw [bufferFromVal_bytes bs hblt]
      simp only []
      rw [hc1]
      simp only []
      rw [hc2]
      simp only []
      rw [Nat.zero_add, hlen]
    · have hu : ∀ ctx, unpackOne R 's' ctx = .ok (unpackToString R ctx) := fun _ => rfl
      rw [hu]
      refine ⟨_, rfl, ?_⟩
      show [PackVal.bytes (subarrayList bs 0 (0 + R))] = [.bytes bs]
      rw [show subarrayList bs 0 (0 + R) = bs.take (0 + R) from rfl,
        List.take_of_length_le (by omega)]
  -- 'p'
  · have hsz : itemSize (R, 'p') = R := rfl
    rw [hsz]
    have hlen1 : (bs.length :: (bs ++ List.replicate (R - 1 - bs.length) 0)).length = R := by
      simp
      omega
    have hc1 : bufCopy bs (List.replicate R 0) 1 0 (R - 1) =
        (0 :: (bs ++ List.replicate (R - 1 - bs.length) 0), bs.length) := by
      unfold bufCopy
      simp only []
      rw [show subarrayList bs 0 (R - 1) = bs.take (R - 1) from rfl,
        List.take_of_length_le hbsL]
      rw [if_neg (by simp; omega)]
      rw [writeBytesAt_replicate_one bs R hR1 hbsL]
    have hbuf1 : (0 :: (bs ++ List.replicate (R - 1 - bs.length) 0)).set 0 (bs.length % 256) =
        bs.length :: (bs ++ List.replicate (R - 1 - bs.length) 0) := by
      rw [Nat.mod_eq_of_lt (by omega)]
      rfl
    have hc2 : bufCopy (bs.length :: (bs ++ List.replicate (R - 1 - bs.length) 0))
        (List.replicate R 0) 0 0
        (bs.length :: (bs ++ List.replicate (R - 1 - bs.length) 0)).length =
        (bs.length :: (bs ++ List.replicate (R - 1 - bs.length) 0),
         (bs.length :: (bs ++ List.replicate (R - 1 - bs.length) 0)).length) := by
      unfold bufCopy
      simp only []
      rw [show subarrayList (bs.length :: (bs ++ List.replicate (R - 1 - bs.length) 0)) 0
          ((bs.length :: (bs ++ List.replicate (R - 1 - bs.length) 0)).length) =
        (bs.length :: (bs ++ List.replicate (R - 1 - bs.length) 0)).take
          ((bs.length :: (bs ++ List.replicate (R - 1 - bs.length) 0)).length) from rfl,
        List.take_of_length_le (le_refl _)]
      rw [if_neg (by simp [hlen1])]
      rw [writeBytesAt_replicate_full _ R hlen1]
    refine ⟨bs.length :: (bs ++ List.replicate (R - 1 - bs.length) 0), ?_, hlen1, ?_⟩
    · have hdisp : ∀ ctx, packOne R 'p' ctx = packFromPascal R ctx := fun _ => rfl
      rw [hdisp, packFromPascal]
      simp only []
      rw [bufferFromVal_bytes bs hblt]
      simp only []
      rw [hc1]
      simp only []
      rw [hbuf1]
      rw [hc2]
      simp only []
      rw [Nat.zero_add, hlen1]
    · have hu : ∀ ctx, unpackOne R 'p' ctx = .ok (unpackToPascal R ctx) := fun _ => rfl
      rw [hu]
      refine ⟨_, rfl, ?_⟩
      have hg : getByteD (bs.length :: (bs ++ List.replicate (R - 1 - bs.length) 0)) 0 =
          bs.length := rfl
      have hsub : subarrayList (bs.length :: (bs ++ List.replicate (R - 1 - bs.length) 0))
          (0 + 1) (0 + 1 + bs.length) = bs := by
        show ((bs.length :: (bs ++ List.replicate (R - 1 - bs.length) 0)).take
          (0 + 1 + bs.length)).drop (0 + 1) = bs
        have h01 : 0 + 1 + bs.length = bs.length + 1 := by omega
        rw [h01, List.take_succ_cons, List.take_left]
        rfl
      show [PackVal.bytes (subarrayList (bs.length :: (bs ++ List.replicate (R - 1 - bs.length) 0))
        (0 + 1) (0 + 1 + min (getByteD (bs.length :: (bs ++ List.replicate (R - 1 - bs.length) 0)) 0)
          (R - 1)))] = [.bytes bs]
      rw [hg, min_eq_left hbsL, hsub]

/-- **C1** (corrected).  Pack/unpack round trip for one-item formats: for
every byte-order prefix (or none), every digit repeat prefix, every
value-consuming type code `t` and every value `v` in `t`'s valid domain
(`validDomain`: scalars take one value in the type's exact range, `s`/`p`
take byte strings fitting the field, floats exclude NaNs, and `e` is
restricted to the binary16 patterns the helpers handle exactly — the
original claim's unrestricted float16 domain fails on subnormal halves,
see the counterexample), `unpack (pack fmt [v]) fmt = [v]`. -/
theorem pack_unpack_roundtrip (nle : Bool) (pre : Option Char) (ds : List Char)
    (t : Char) (v : PackVal)
    (hpre : ∀ c, pre = some c → isByteOrderPrefix c = true)
    (hds : ∀ c ∈ ds, c.isDigit = true)
    (hdom : validDomain (clampRepeat t (effRep ds)) t v) :
    ∃ buf : List Nat, pack nle none (mkFmt pre ds t) [v] = .ok buf ∧
      unpack nle buf (mkFmt pre ds t) = .ok [v] := by
  have ht : isPackTypeCode t = true := validDomain_code _ _ _ hdom
  have hparse := packParseFormat_mkFmt nle pre ds t hpre hds ht
  obtain ⟨bufP, hpack1, hlenP, ctxU, hunp1, hvals⟩ :=
    packOne_unpackOne_roundtrip (resolveByteOrder nle pre)
      (clampRepeat t (effRep ds)) t v hdom
  have hcs : packCalcSize [(clampRepeat t (effRep ds), t)] =
      itemSize (clampRepeat t (effRep ds), t) := by
    simp [packCalcSize]
  have hitems : packItems [(clampRepeat t (effRep ds), t)]
      ⟨List.replicate (itemSize (clampRepeat t (effRep ds), t)) 0,
        resolveByteOrder nle pre, 0, [v]⟩ =
      .ok ⟨bufP, resolveByteOrder nle pre, itemSize (clampRepeat t (effRep ds), t), []⟩ := by
    rw [packItems, hpack1]
    rfl
  have hitemsU : unpackItems [(clampRepeat t (effRep ds), t)]
      ⟨bufP, resolveByteOrder nle pre, 0, []⟩ = .ok ctxU := by
    rw [unpackItems, hunp1]
    rfl
  refine ⟨bufP, ?_, ?_⟩
  · rw [pack, hparse]
    simp only [Option.getD]
    rw [hcs]
    rw [if_neg (by simp)]
    rw [hitems]
  · rw [unpack, hparse]
    simp only []
    rw [hcs]
    rw [if_neg (by omega)]
    rw [hitemsU]
    simp only []
    rw [hvals]

set_option maxRecDepth 100000 in
/-- **C1**, counterexample to the unrestricted claim: the double `2⁻²⁴`
(bits `999·2⁵²`, the value `2⁵² · 2⁻⁷⁶`) is exactly representable in
binary16 — the ideal IEEE-754 rounder sends it to the subnormal half with
pattern 1 and sends that half's value back to the same double bit-for-bit
(last two conjuncts) — yet `pack '!e'` stores it as `0x5C00` (= 256.0) and
unpacking those bytes returns 256.0 (bits `1031·2⁵²`), not `2⁻²⁴`: the
repository's half-precision helpers mangle subnormal halves, so the round
trip fails on a value inside `e`'s valid domain as the claim states it. -/
theorem pack_unpack_roundtrip_counterexample :
    pack true none "!e" [.f64 (999 * 2 ^ 52)] = .ok [0x5C, 0x00] ∧
    unpack true [0x5C, 0x00] "!e" = .ok [.f64 (1031 * 2 ^ 52)] ∧
    (999 * 2 ^ 52 : Nat) ≠ 1031 * 2 ^ 52 ∧
    roundFloatMag 10 (-24) 31 (2 ^ 52) (-76) = 1 ∧
    roundFloatMag 52 (-1074) 2047 1 (-24) = 999 * 2 ^ 52 := by
  refine ⟨rfl, rfl, by norm_num, rfl, rfl⟩

theorem pack_unpack_roundtrip_witness :
    (∀ c, (some '!' : Option Char) = some c → isByteOrderPrefix c = true) ∧
    (∀ c ∈ ([] : List Char), c.isDigit = true) ∧
    validDomain (clampRepeat 'B' (effRep [])) 'B' (.int 200) ∧
    ∃ buf : List Nat, pack true none (mkFmt (some '!') [] 'B') [.int 200] = .ok buf ∧
      unpack true buf (mkFmt (some '!') [] 'B') = .ok [.int 200] := by
  have h1 : ∀ c, (some '!' : Option Char) = some c → isByteOrderPrefix c = true := by
    intro c hc
    cases hc
    rfl
  have h2 : ∀ c ∈ ([] : List Char), c.isDigit = true := by
    intro c hc
    cases hc
  have h3 : validDomain (clampRepeat 'B' (effRep [])) 'B' (.int 200) :=
    Or.inr (Or.inr (Or.inl ⟨rfl, rfl, 200, rfl, by norm_num, by norm_num⟩))
  exact ⟨h1, h2, h3, pack_unpack_roundtrip true (some '!') [] 'B' (.int 200) h1 h2 h3⟩

end JsBuffer
